import Mathlib

/-!
Verification of the Middleman Problem solver

A shallow embedding, in Lean 4, of the core optimization engine of the
Middleman Problem solver (`src/lib/utils/middleman.ts`), together with
theorems settling a list of claims about its specification.

Modelling conventions:
* JavaScript numbers are modelled by the exact rationals `ℚ` (the program
  performs only field arithmetic, `min`, comparisons and an absolute-value
  tolerance test on its numeric data).
* JavaScript dense arrays of numbers that are used as mutable working
  buffers (remaining supply/demand vectors, the transportation-plan matrix)
  are modelled as total functions `ℕ → ℚ` (resp. `ℕ → ℕ → ℚ`), updated
  functionally with `Function.update`; entries out of the array bounds are
  `0` and are never read by the algorithm.
* Input matrices keep their list-of-lists shape (`List (List ℚ)`), with the
  defensive `x[i]?.[j] || 0` access pattern of the source modelled by
  `List.getD`.
* The `while` loops of the source recurse on an explicit fuel which is large
  enough that the loop always exits through its own guard (this is proved
  where the claims need it).
* Accumulation loops over all matrix cells (the results aggregator) are
  modelled as finite sums; `ℚ` addition is commutative and associative, so
  the sum equals the source's sequential accumulation.
-/

namespace Middleman

/-- Numerical tolerance used by the source for floating point comparisons
(`epsilon = 0.001`). -/
def eps : ℚ := 1 / 1000

/-- A supplier (`Supplier` in `types/middleman.ts`): identity, display name,
available supply, per-unit purchase cost. -/
structure Supplier where
  id : String
  name : String
  supply : ℚ
  purchaseCost : ℚ
deriving DecidableEq, Repr

/-- A customer (`Customer` in `types/middleman.ts`): identity, display name,
demand, per-unit selling price. -/
structure Customer where
  id : String
  name : String
  demand : ℚ
  sellingPrice : ℚ
deriving DecidableEq, Repr

/-- Input problem (`MiddlemanProblem`).  The transportation costs are given
as a (possibly ragged or wrongly-sized) matrix of numbers; the
`TransportationCost`-object input format accepted by the UI layer is not
modelled (the claims only concern the numeric-matrix format). -/
structure MiddlemanProblem where
  suppliers : List Supplier
  customers : List Customer
  transportationCosts : List (List ℚ)
deriving DecidableEq, Repr

/-- A positive-flow route in the output (`TransportationCell`). -/
structure TransportationCell where
  supplierId : String
  customerId : String
  quantity : ℚ
  unitProfit : ℚ
  purchaseCost : ℚ
  transportationCost : ℚ
  sellingPrice : ℚ
deriving DecidableEq, Repr

/-- Result of `balanceProblem` (`BalancedProblem`). -/
structure BalancedProblem where
  suppliers : List Supplier
  customers : List Customer
  isBalanced : Bool
  fictitiousSupplier : Option Supplier
  fictitiousCustomer : Option Customer
  originalSupplyTotal : ℚ
  originalDemandTotal : ℚ
deriving DecidableEq, Repr

/-- Dual variables (`DualVariables`), one `α` per supplier row and one `β`
per customer column, modelled as index functions. -/
structure DualVariables where
  alpha : ℕ → ℚ
  beta : ℕ → ℚ

/-- An improvement opportunity (`ImprovementOpportunity`). -/
structure ImprovementOpportunity where
  supplierIndex : ℕ
  customerIndex : ℕ
  improvement : ℚ
  currentProfit : ℚ
  potentialProfit : ℚ
deriving DecidableEq, Repr

instance : Inhabited ImprovementOpportunity := ⟨⟨0, 0, 0, 0, 0⟩⟩

/-- Result of `checkOptimality`. -/
structure OptimalityCheck where
  isOptimal : Bool
  improvements : List ImprovementOpportunity

/-- Result of `validateProblem` (`ValidationResult`). -/
structure ValidationResult where
  isValid : Bool
  errors : List String
  warnings : List String
deriving DecidableEq, Repr

/-- The four financial totals returned by `calculateResults`. -/
structure CalculationResults where
  totalPurchaseCost : ℚ
  totalTransportationCost : ℚ
  totalRevenue : ℚ
  totalProfit : ℚ
deriving DecidableEq, Repr

/-- The solution record (`MiddlemanSolution`).  The `executionTime` field of
the source is a wall-clock measurement (`performance.now()`), not a function
of the input, and is not modelled. -/
structure MiddlemanSolution where
  profitMatrix : List (List ℚ)
  transportationPlan : ℕ → ℕ → ℚ
  isBalanced : Bool
  isFeasible : Bool
  isOptimal : Bool
  totalPurchaseCost : ℚ
  totalTransportationCost : ℚ
  totalRevenue : ℚ
  totalProfit : ℚ
  optimalRoutes : List TransportationCell
  algorithm : String
  iterations : ℕ

/-- Default supplier used to model defensive array accesses
(`suppliers[i]?.x || 0`): all numeric fields `0`, empty identity. -/
def defaultSupplier : Supplier := ⟨"", "", 0, 0⟩

/-- Default customer for defensive array accesses. -/
def defaultCustomer : Customer := ⟨"", "", 0, 0⟩

/-- `suppliers[i]` with the defensive default. -/
def supplierAt (suppliers : List Supplier) (i : ℕ) : Supplier :=
  suppliers.getD i defaultSupplier

/-- `customers[j]` with the defensive default. -/
def customerAt (customers : List Customer) (j : ℕ) : Customer :=
  customers.getD j defaultCustomer

/-- `suppliers[i].supply` (0 out of range). -/
def supplyAt (suppliers : List Supplier) (i : ℕ) : ℚ :=
  (supplierAt suppliers i).supply

/-- `customers[j].demand` (0 out of range). -/
def demandAt (customers : List Customer) (j : ℕ) : ℚ :=
  (customerAt customers j).demand

/-- Access `m[i]?.[j] || 0` on a list-of-lists matrix. -/
def zGet (m : List (List ℚ)) (i j : ℕ) : ℚ :=
  (m.getD i []).getD j 0

/-- All cells `(i, j)` with `i < m`, `j < n`, listed in the row-major order
in which the source's nested `for` loops visit them. -/
def rowMajor (m n : ℕ) : List (ℕ × ℕ) :=
  (List.range m).flatMap fun i => (List.range n).map fun j => (i, j)

/-- `totalSupply = suppliers.reduce((sum, s) => sum + s.supply, 0)`. -/
def totalSupply (suppliers : List Supplier) : ℚ :=
  suppliers.foldl (fun sum s => sum + s.supply) 0

/-- `totalDemand = customers.reduce((sum, c) => sum + c.demand, 0)`. -/
def totalDemand (customers : List Customer) : ℚ :=
  customers.foldl (fun sum c => sum + c.demand) 0

/-- `validateTransportationCosts` (numeric-matrix case): copies the entries
of `costs` that fall inside an `m × n` matrix and zero-fills the rest; if
`costs` is empty or its first row is empty (so that `costs[0][0]` is not a
number), the recognized-format guards fail and an all-zero matrix is
returned. -/
def validateTransportationCosts (costs : List (List ℚ)) (m n : ℕ) :
    List (List ℚ) :=
  match costs with
  | [] => (List.range m).map fun _ => (List.range n).map fun _ => (0 : ℚ)
  | r :: _ =>
    if r.isEmpty then (List.range m).map fun _ => (List.range n).map fun _ => (0 : ℚ)
    else (List.range m).map fun i => (List.range n).map fun j => (costs.getD i []).getD j 0

/-- `calculateProfitMatrix`: `Z[i][j] = sellingPrice[j] − purchaseCost[i]
− transportCost[i][j]`, with defensive `|| 0` defaults on every access. -/
def calculateProfitMatrix (suppliers : List Supplier) (customers : List Customer)
    (transportationCosts : List (List ℚ)) : List (List ℚ) :=
  (List.range suppliers.length).map fun i =>
    (List.range customers.length).map fun j =>
      (customerAt customers j).sellingPrice - (supplierAt suppliers i).purchaseCost -
        zGet transportationCosts i j

/-- `balanceProblem`: appends one fictitious customer (resp. supplier) when
total supply exceeds total demand (resp. conversely). -/
def balanceProblem (suppliers : List Supplier) (customers : List Customer) :
    BalancedProblem :=
  let ts := totalSupply suppliers
  let td := totalDemand customers
  if td < ts then
    { suppliers := suppliers
      customers := customers ++ [⟨"fictitious-customer", "Fictitious Customer", ts - td, 0⟩]
      isBalanced := false
      fictitiousSupplier := none
      fictitiousCustomer := some ⟨"fictitious-customer", "Fictitious Customer", ts - td, 0⟩
      originalSupplyTotal := ts
      originalDemandTotal := td }
  else if ts < td then
    { suppliers := suppliers ++ [⟨"fictitious-supplier", "Fictitious Supplier", td - ts, 0⟩]
      customers := customers
      isBalanced := false
      fictitiousSupplier := some ⟨"fictitious-supplier", "Fictitious Supplier", td - ts, 0⟩
      fictitiousCustomer := none
      originalSupplyTotal := ts
      originalDemandTotal := td }
  else
    { suppliers := suppliers
      customers := customers
      isBalanced := true
      fictitiousSupplier := none
      fictitiousCustomer := none
      originalSupplyTotal := ts
      originalDemandTotal := td }

/-- `validateProblem`: collects the error messages exactly as the source
does (the transportation-costs warning can only fire on a `null` input,
which has no counterpart here, so `warnings` is always empty). -/
def validateProblem (p : MiddlemanProblem) : ValidationResult :=
  let supplierErrors : List String :=
    if p.suppliers.isEmpty then ["Problem must have at least one supplier"]
    else p.suppliers.flatMap fun s =>
      (if s.supply ≤ 0 then ["Supplier " ++ s.name ++ " must have positive supply"] else []) ++
      (if s.purchaseCost < 0 then
        ["Supplier " ++ s.name ++ " cannot have negative purchase cost"] else [])
  let customerErrors : List String :=
    if p.customers.isEmpty then ["Problem must have at least one customer"]
    else p.customers.flatMap fun c =>
      (if c.demand ≤ 0 then ["Customer " ++ c.name ++ " must have positive demand"] else []) ++
      (if c.sellingPrice < 0 then
        ["Customer " ++ c.name ++ " cannot have negative selling price"] else [])
  let errors := supplierErrors ++ customerErrors
  { isValid := errors.isEmpty, errors := errors, warnings := [] }

/-- State of the Maximum Element Method loop in `findOptimalTransportation`:
the mutable `remainingSupply` / `remainingDemand` vectors, the plan matrix
being filled in, and the `allocationStep` counter. -/
structure MemState where
  remS : ℕ → ℚ
  remD : ℕ → ℚ
  plan : ℕ → ℕ → ℚ
  steps : ℕ

/-- The scan for the maximum-profit cell inside the MEM loop: visit all
cells in row-major order, keep a cell when its row has positive remaining
supply and its column positive remaining demand and its profit is strictly
larger than the best so far (`none` models the initial `maxProfit =
-Infinity` / `maxI = maxJ = -1` state, which any eligible cell beats). -/
def findMaxCell (Z : ℕ → ℕ → ℚ) (m n : ℕ) (remS remD : ℕ → ℚ) :
    Option (ℕ × ℕ) :=
  (rowMajor m n).foldl
    (fun best c =>
      if 0 < remS c.1 ∧ 0 < remD c.2 then
        match best with
        | none => some c
        | some b => if Z b.1 b.2 < Z c.1 c.2 then some c else best
      else best)
    none

/-- One unfolding of the MEM `while` loop: while some remaining supply and
some remaining demand are positive, find the maximum-profit eligible cell,
allocate `min(remainingSupply[i], remainingDemand[j])` there and decrement
both vectors.  The source loop is unbounded; `fuel` is an upper bound on the
number of iterations, chosen large enough by the caller that the loop always
exits through its guard (proved below). -/
def memGo (Z : ℕ → ℕ → ℚ) (m n : ℕ) : ℕ → MemState → MemState
  | 0, st => st
  | fuel + 1, st =>
    if ((List.range m).any fun i => decide (0 < st.remS i)) &&
       ((List.range n).any fun j => decide (0 < st.remD j)) then
      match findMaxCell Z m n st.remS st.remD with
      | none => st
      | some (i, j) =>
        let a := min (st.remS i) (st.remD j)
        memGo Z m n fuel
          { remS := Function.update st.remS i (st.remS i - a)
            remD := Function.update st.remD j (st.remD j - a)
            plan := Function.update st.plan i (Function.update (st.plan i) j a)
            steps := st.steps + 1 }
    else st

/-- `findOptimalTransportation` (Maximum Element Method).  The source
returns only the plan matrix; the full final loop state (including the
`allocationStep` counter) is returned here so that the step count can be
specified.  `m + n` fuel always suffices for the guard to fail (proved
below). -/
def findOptimalTransportation (profitMatrix : List (List ℚ))
    (suppliers : List Supplier) (customers : List Customer) : MemState :=
  let m := suppliers.length
  let n := customers.length
  memGo (zGet profitMatrix) m n (m + n)
    { remS := supplyAt suppliers
      remD := demandAt customers
      plan := fun _ _ => 0
      steps := 0 }

/-- The basic (positive-flow) cells of a plan, in row-major order, as
collected by `calculateDualVariables`. -/
def basicCells (plan : ℕ → ℕ → ℚ) (m n : ℕ) : List (ℕ × ℕ) :=
  (rowMajor m n).filter fun c => decide (0 < plan c.1 c.2)

/-- One pass of the dual-variable derivation loop: scan the basic cells in
order and, whenever exactly one of `α[i]`, `β[j]` is known, derive the other
from `Z[i][j] = α[i] + β[j]`, recording that something changed.  `none`
models the `null` "unknown" sentinel of the source. -/
def dualPass (Z : ℕ → ℕ → ℚ) (cells : List (ℕ × ℕ))
    (st : (ℕ → Option ℚ) × (ℕ → Option ℚ) × Bool) :
    (ℕ → Option ℚ) × (ℕ → Option ℚ) × Bool :=
  cells.foldl
    (fun st c =>
      let (a, b, ch) := st
      match a c.1, b c.2 with
      | some x, none => (a, Function.update b c.2 (some (Z c.1 c.2 - x)), true)
      | none, some y => (Function.update a c.1 (some (Z c.1 c.2 - y)), b, true)
      | _, _ => (a, b, ch))
    st

/-- The `while (changed && iteration < 50)` loop of
`calculateDualVariables`. -/
def dualIter (Z : ℕ → ℕ → ℚ) (cells : List (ℕ × ℕ)) :
    ℕ → (ℕ → Option ℚ) → (ℕ → Option ℚ) → (ℕ → Option ℚ) × (ℕ → Option ℚ)
  | 0, a, b => (a, b)
  | fuel + 1, a, b =>
    let (a2, b2, ch) := dualPass Z cells (a, b, false)
    if ch then dualIter Z cells fuel a2 b2 else (a2, b2)

/-- `calculateDualVariables`: collect the basic cells, pin the `α` of the
first row containing a basic cell to `0` (all-zero duals if there is none),
iterate the derivation passes (at most 50), and default every remaining
unknown to `0`. -/
def calculateDualVariables (profitMatrix : List (List ℚ)) (plan : ℕ → ℕ → ℚ)
    (m n : ℕ) : DualVariables :=
  let Z := zGet profitMatrix
  let basic := basicCells plan m n
  match (List.range m).find? (fun i => basic.any fun c => c.1 == i) with
  | none => { alpha := fun _ => 0, beta := fun _ => 0 }
  | some i0 =>
    let a0 : ℕ → Option ℚ := Function.update (fun _ => none) i0 (some 0)
    let b0 : ℕ → Option ℚ := fun _ => none
    let ab := dualIter Z basic 50 a0 b0
    { alpha := fun i => (ab.1 i).getD 0, beta := fun j => (ab.2 j).getD 0 }

/-- Stable insertion of an improvement into a descending-sorted list: the
new element (which comes later in the scan order) goes after every element
with an equal or larger improvement.  Models the stable JavaScript
`Array.prototype.sort` with comparator `(a, b) => b.improvement -
a.improvement`. -/
def insertImprovementDesc (x : ImprovementOpportunity) :
    List ImprovementOpportunity → List ImprovementOpportunity
  | [] => [x]
  | y :: ys =>
    if y.improvement < x.improvement then x :: y :: ys
    else y :: insertImprovementDesc x ys

/-- Stable descending sort by `improvement` (see `insertImprovementDesc`). -/
def sortImprovementsDesc (l : List ImprovementOpportunity) :
    List ImprovementOpportunity :=
  l.foldl (fun acc x => insertImprovementDesc x acc) []

/-- `checkOptimality`: compute the duals, collect every non-basic cell
(`X[i][j] ≤ ε`) whose opportunity cost `Δ[i][j] = Z[i][j] − α[i] − β[j]`
exceeds `ε`, sort descending by `Δ`, and declare the plan optimal iff no
opportunity exists. -/
def checkOptimality (profitMatrix : List (List ℚ)) (plan : ℕ → ℕ → ℚ)
    (suppliers : List Supplier) (customers : List Customer) : OptimalityCheck :=
  let m := suppliers.length
  let n := customers.length
  let Z := zGet profitMatrix
  let duals := calculateDualVariables profitMatrix plan m n
  let improvements : List ImprovementOpportunity :=
    (rowMajor m n).filterMap fun c =>
      if plan c.1 c.2 ≤ eps then
        let opportunityCost := Z c.1 c.2 - duals.alpha c.1 - duals.beta c.2
        if eps < opportunityCost then
          some { supplierIndex := c.1, customerIndex := c.2,
                 improvement := opportunityCost, currentProfit := 0,
                 potentialProfit := Z c.1 c.2 }
        else none
      else none
  let sorted := sortImprovementsDesc improvements
  { isOptimal := sorted.isEmpty, improvements := sorted }

/-- `arraysEqual`: two `m × n` plans are equal when every entry differs by
at most `0.001`. -/
def arraysEqual (a b : ℕ → ℕ → ℚ) (m n : ℕ) : Bool :=
  (List.range m).all fun i =>
    (List.range n).all fun j => decide (|a i j - b i j| ≤ 1 / 1000)

/-- `improveSolution` (simplified stepping stone): allocate directly into
the improving cell when its row and column both have slack; otherwise shift
at most one unit from the first positive cell on the same row, and failing
that from the first positive cell on the same column. -/
def improveSolution (plan : ℕ → ℕ → ℚ) (improvement : ImprovementOpportunity)
    (suppliers : List Supplier) (customers : List Customer) : ℕ → ℕ → ℚ :=
  let i := improvement.supplierIndex
  let j := improvement.customerIndex
  let currentSupplyUsed := ∑ k ∈ Finset.range customers.length, plan i k
  let currentDemandMet := ∑ k ∈ Finset.range suppliers.length, plan k j
  let availableSupply := supplyAt suppliers i - currentSupplyUsed
  let unmetDemand := demandAt customers j - currentDemandMet
  let maxNewAllocation := min availableSupply unmetDemand
  if 0 < maxNewAllocation then
    Function.update plan i (Function.update (plan i) j (plan i j + maxNewAllocation))
  else
    match (List.range customers.length).find? fun k =>
        !(k == j) && decide (0 < plan i k) &&
        decide (0 < min (plan i k) (min unmetDemand 1)) with
    | some k =>
      let canReduce := min (plan i k) (min unmetDemand 1)
      Function.update plan i
        (Function.update (Function.update (plan i) k (plan i k - canReduce)) j
          (plan i j + canReduce))
    | none =>
      match (List.range suppliers.length).find? fun k =>
          !(k == i) && decide (0 < plan k j) &&
          decide (0 < min (plan k j) (min availableSupply 1)) with
      | some k =>
        let canReduce := min (plan k j) (min availableSupply 1)
        Function.update
          (Function.update plan k (Function.update (plan k) j (plan k j - canReduce)))
          i (Function.update (plan i) j (plan i j + canReduce))
      | none => plan

/-- State of the iterative-improvement loop of `solveMiddlemanProblem`. -/
structure LoopState where
  plan : ℕ → ℕ → ℚ
  isOptimal : Bool
  iterations : ℕ

/-- The `while (!isOptimal && iterations < maxIterations)` improvement loop
of `solveMiddlemanProblem` (entered with `isOptimal = false`).  Each
iteration re-checks optimality; if optimal the counter is incremented once
more and the guard exits; otherwise the best opportunity is applied, with
`break` when the plan did not change (or no opportunity existed).  Fuel 21
is enough for the `iterations < 20` guard to fire first. -/
def solveLoopAux (profitMatrix : List (List ℚ)) (suppliers : List Supplier)
    (customers : List Customer) : ℕ → (ℕ → ℕ → ℚ) → ℕ → LoopState
  | 0, plan, iters => { plan := plan, isOptimal := false, iterations := iters }
  | fuel + 1, plan, iters =>
    if 20 ≤ iters then { plan := plan, isOptimal := false, iterations := iters }
    else
      let chk := checkOptimality profitMatrix plan suppliers customers
      if chk.isOptimal then { plan := plan, isOptimal := true, iterations := iters + 1 }
      else if chk.improvements.isEmpty then
        { plan := plan, isOptimal := false, iterations := iters }
      else
        let newPlan := improveSolution plan (chk.improvements.headD default)
          suppliers customers
        if arraysEqual plan newPlan suppliers.length customers.length then
          { plan := plan, isOptimal := false, iterations := iters }
        else solveLoopAux profitMatrix suppliers customers fuel newPlan (iters + 1)

/-- `calculateResults`: for every positive-flow cell, accumulate purchase
cost and transport cost when neither endpoint is the fictitious node, and
revenue when the customer is not fictitious; net profit is revenue minus the
two costs.  The source accumulates in a row-major double loop; over `ℚ` that
loop computes exactly these finite sums. -/
def calculateResults (plan : ℕ → ℕ → ℚ) (suppliers : List Supplier)
    (customers : List Customer) (transportationCosts : List (List ℚ)) :
    CalculationResults :=
  let m := suppliers.length
  let n := customers.length
  let validatedCosts := validateTransportationCosts transportationCosts m n
  let totalPurchaseCost := ∑ i ∈ Finset.range m, ∑ j ∈ Finset.range n,
    if 0 < plan i j ∧ ¬(customerAt customers j).id = "fictitious-customer" ∧
        ¬(supplierAt suppliers i).id = "fictitious-supplier" then
      plan i j * (supplierAt suppliers i).purchaseCost
    else 0
  let totalTransportationCost := ∑ i ∈ Finset.range m, ∑ j ∈ Finset.range n,
    if 0 < plan i j ∧ ¬(customerAt customers j).id = "fictitious-customer" ∧
        ¬(supplierAt suppliers i).id = "fictitious-supplier" then
      plan i j * zGet validatedCosts i j
    else 0
  let totalRevenue := ∑ i ∈ Finset.range m, ∑ j ∈ Finset.range n,
    if 0 < plan i j ∧ ¬(customerAt customers j).id = "fictitious-customer" then
      plan i j * (customerAt customers j).sellingPrice
    else 0
  { totalPurchaseCost := totalPurchaseCost
    totalTransportationCost := totalTransportationCost
    totalRevenue := totalRevenue
    totalProfit := totalRevenue - totalPurchaseCost - totalTransportationCost }

/-- `createOptimalRoutes`: emit, in row-major order, every positive-flow
cell both of whose endpoints are real, with its quantity, unit profit and
the three per-unit price components. -/
def createOptimalRoutes (plan : ℕ → ℕ → ℚ) (suppliers : List Supplier)
    (customers : List Customer) (transportationCosts : List (List ℚ))
    (profitMatrix : List (List ℚ)) : List TransportationCell :=
  let m := suppliers.length
  let n := customers.length
  let validatedCosts := validateTransportationCosts transportationCosts m n
  (rowMajor m n).filterMap fun c =>
    let quantity := plan c.1 c.2
    if 0 < quantity then
      let supplier := supplierAt suppliers c.1
      let customer := customerAt customers c.2
      if ¬customer.id = "fictitious-customer" ∧ ¬supplier.id = "fictitious-supplier" then
        some { supplierId := supplier.id, customerId := customer.id,
               quantity := quantity, unitProfit := zGet profitMatrix c.1 c.2,
               purchaseCost := supplier.purchaseCost,
               transportationCost := zGet validatedCosts c.1 c.2,
               sellingPrice := customer.sellingPrice }
      else none
    else none

/-- Step 2 of `solveMiddlemanProblem`: the balanced problem. -/
def balancedOf (p : MiddlemanProblem) : BalancedProblem :=
  balanceProblem p.suppliers p.customers

/-- Step 3 of `solveMiddlemanProblem`: the validated transportation-cost
matrix, sized for the balanced problem. -/
def costsOf (p : MiddlemanProblem) : List (List ℚ) :=
  validateTransportationCosts p.transportationCosts
    (balancedOf p).suppliers.length (balancedOf p).customers.length

/-- Step 4 of `solveMiddlemanProblem`: the profit matrix of the balanced
problem. -/
def profitMatrixOf (p : MiddlemanProblem) : List (List ℚ) :=
  calculateProfitMatrix (balancedOf p).suppliers (balancedOf p).customers (costsOf p)

/-- Step 5 of `solveMiddlemanProblem`: the initial Maximum Element Method
solution (full loop state). -/
def initialStateOf (p : MiddlemanProblem) : MemState :=
  findOptimalTransportation (profitMatrixOf p) (balancedOf p).suppliers
    (balancedOf p).customers

/-- The success path of `solveMiddlemanProblem` (steps 2–8 of the source:
balance, validate costs, profit matrix, Maximum Element Method, optimality
check plus improvement loop, aggregation, route list). -/
def solutionOf (p : MiddlemanProblem) : MiddlemanSolution :=
  let bp := balancedOf p
  let transportationCosts := costsOf p
  let profitMatrix := profitMatrixOf p
  let mem := initialStateOf p
  let initialCheck := checkOptimality profitMatrix mem.plan bp.suppliers bp.customers
  let final :=
    if initialCheck.isOptimal then
      { plan := mem.plan, isOptimal := true, iterations := 0 : LoopState }
    else solveLoopAux profitMatrix bp.suppliers bp.customers 21 mem.plan 0
  let results := calculateResults final.plan bp.suppliers bp.customers transportationCosts
  let optimalRoutes := createOptimalRoutes final.plan bp.suppliers bp.customers
    transportationCosts profitMatrix
  { profitMatrix := profitMatrix
    transportationPlan := final.plan
    isBalanced := bp.isBalanced
    isFeasible := true
    isOptimal := final.isOptimal
    totalPurchaseCost := results.totalPurchaseCost
    totalTransportationCost := results.totalTransportationCost
    totalRevenue := results.totalRevenue
    totalProfit := results.totalProfit
    optimalRoutes := optimalRoutes
    algorithm := "Maximum Element Method with Dual Variable Optimality Check"
    iterations := final.iterations }

/-- `solveMiddlemanProblem`: validate (throwing — modelled as `.error` — on
a structurally invalid input), then run the solving pipeline. -/
def solveMiddlemanProblem (p : MiddlemanProblem) :
    Except String MiddlemanSolution :=
  if (validateProblem p).isValid = false then
    .error ("Invalid problem: " ++ String.intercalate ", " (validateProblem p).errors)
  else if p.suppliers.isEmpty || p.customers.isEmpty then
    .error "Invalid problem: no suppliers or customers"
  else
    .ok (solutionOf p)

/-- The worked example of the specification: suppliers S1 (supply 50, cost
8) and S2 (supply 70, cost 10). -/
def exampleSuppliers : List Supplier :=
  [⟨"s1", "S1", 50, 8⟩, ⟨"s2", "S2", 70, 10⟩]

/-- The worked example: customers C1 (demand 40, price 20) and C2 (demand
60, price 25). -/
def exampleCustomers : List Customer :=
  [⟨"c1", "C1", 40, 20⟩, ⟨"c2", "C2", 60, 25⟩]

/-- The worked example's transport-cost matrix. -/
def exampleCosts : List (List ℚ) := [[2, 4], [3, 1]]

/-- The worked example as a full problem (total supply 120 > total demand
100, so balancing adds a fictitious customer with demand 20). -/
def exampleProblem : MiddlemanProblem :=
  ⟨exampleSuppliers, exampleCustomers, exampleCosts⟩

/-- A problem with total demand (30) exceeding total supply (10): balancing
adds a fictitious supplier with 20 units, which the Maximum Element Method
ships to the (real) customer. -/
def deficitProblem : MiddlemanProblem :=
  ⟨[⟨"s1", "S1", 10, 5⟩], [⟨"c1", "C1", 30, 4⟩], [[0]]⟩

/-- A balanced problem engineered so that the Maximum Element Method plan
fails the dual optimality test (the check finds an improvement at cell
(0, 0)): the improvement loop then stops by stagnation on its first pass. -/
def stagnationProblem : MiddlemanProblem :=
  ⟨[⟨"a", "A", 10, 0⟩, ⟨"b", "B", 10, 0⟩],
   [⟨"x", "X", 10, 5⟩, ⟨"y", "Y", 10, 10⟩], [[0, 0], [5, 20]]⟩

/-- A minimal balanced problem. -/
def balancedSmallProblem : MiddlemanProblem :=
  ⟨[⟨"s", "S", 5, 1⟩], [⟨"c", "C", 5, 3⟩], [[0]]⟩

/-- A structurally invalid problem (no suppliers). -/
def invalidExample : MiddlemanProblem :=
  ⟨[], [⟨"c", "C", 5, 3⟩], [[0]]⟩

/-- Transcribed from the claim under test: a structurally invalid input has
no suppliers, no customers, a non-positive supply or demand, or a negative
purchase cost or selling price. -/
def structurallyInvalid (p : MiddlemanProblem) : Prop :=
  p.suppliers = [] ∨ p.customers = [] ∨ (∃ s ∈ p.suppliers, s.supply ≤ 0) ∨
  (∃ c ∈ p.customers, c.demand ≤ 0) ∨ (∃ s ∈ p.suppliers, s.purchaseCost < 0) ∨
  (∃ c ∈ p.customers, c.sellingPrice < 0)

instance decidableStructurallyInvalid (p : MiddlemanProblem) :
    Decidable (structurallyInvalid p) := by
  unfold structurallyInvalid
  infer_instance

/-- Following the words of the claim under test (not the source): the total
revenue a solve would report if flows with a fictitious supplier were
excluded from revenue as well, i.e. revenue summed only over positive-flow
cells with no fictitious endpoint. -/
def claimedRevenueBothRealOnly (plan : ℕ → ℕ → ℚ) (suppliers : List Supplier)
    (customers : List Customer) : ℚ :=
  ∑ i ∈ Finset.range suppliers.length, ∑ j ∈ Finset.range customers.length,
    if 0 < plan i j ∧ ¬(customerAt customers j).id = "fictitious-customer" ∧
        ¬(supplierAt suppliers i).id = "fictitious-supplier" then
      plan i j * (customerAt customers j).sellingPrice
    else 0

/-- Strict row-major (lexicographic) order on cells. -/
def lexLt (a b : ℕ × ℕ) : Prop :=
  a.1 < b.1 ∨ (a.1 = b.1 ∧ a.2 < b.2)

/-- Eligibility of a cell during the MEM scan. -/
def elig (remS remD : ℕ → ℚ) (c : ℕ × ℕ) : Prop :=
  0 < remS c.1 ∧ 0 < remD c.2

/-- The fold step of `findMaxCell`. -/
def scanStep (Z : ℕ → ℕ → ℚ) (remS remD : ℕ → ℚ)
    (best : Option (ℕ × ℕ)) (c : ℕ × ℕ) : Option (ℕ × ℕ) :=
  if 0 < remS c.1 ∧ 0 < remD c.2 then
    match best with
    | none => some c
    | some b => if Z b.1 b.2 < Z c.1 c.2 then some c else best
  else best

/-- Number of in-range entries of the remaining vectors that are still
positive; the termination measure of the MEM loop. -/
def posCount (m n : ℕ) (st : MemState) : ℕ :=
  ((Finset.range m).filter fun i => 0 < st.remS i).card +
  ((Finset.range n).filter fun j => 0 < st.remD j).card

/-- Loop invariant of the MEM loop relative to the supply and demand
vectors it was seeded from: remaining vectors and plan are non-negative,
each row (column) sum plus the remaining supply (demand) reconstructs the
original vector, cells still eligible were never written, and nothing is
written out of range. -/
def MemInv (supply demand : ℕ → ℚ) (m n : ℕ) (st : MemState) : Prop :=
  (∀ i, 0 ≤ st.remS i) ∧ (∀ j, 0 ≤ st.remD j) ∧
  (∀ i j, 0 ≤ st.plan i j) ∧
  (∀ i, (∑ j ∈ Finset.range n, st.plan i j) + st.remS i = supply i) ∧
  (∀ j, (∑ i ∈ Finset.range m, st.plan i j) + st.remD j = demand j) ∧
  (∀ i j, 0 < st.remS i → 0 < st.remD j → st.plan i j = 0) ∧
  (∀ i j, m ≤ i ∨ n ≤ j → st.plan i j = 0)

/-! ## Basic lemmas about the data accessors -/

theorem foldl_add_eq {α : Type} (f : α → ℚ) :
    ∀ (l : List α) (init : ℚ), l.foldl (fun sum x => sum + f x) init = init + (l.map f).sum
  | [], init => by simp
  | x :: t, init => by
    simp only [List.foldl_cons, List.map_cons, List.sum_cons]
    rw [foldl_add_eq f t (init + f x)]
    ring

theorem totalSupply_eq_sum (suppliers : List Supplier) :
    totalSupply suppliers = (suppliers.map Supplier.supply).sum := by
  simpa using foldl_add_eq Supplier.supply suppliers 0

theorem totalDemand_eq_sum (customers : List Customer) :
    totalDemand customers = (customers.map Customer.demand).sum := by
  simpa using foldl_add_eq Customer.demand customers 0

theorem sum_range_getD {α : Type} (f : α → ℚ) (d : α) :
    ∀ l : List α, ∑ i ∈ Finset.range l.length, f (l.getD i d) = (l.map f).sum
  | [] => by simp
  | x :: t => by
    rw [List.length_cons, Finset.sum_range_succ' (fun i => f ((x :: t).getD i d)) t.length]
    simp only [List.getD_cons_succ, List.getD_cons_zero, List.map_cons, List.sum_cons]
    rw [sum_range_getD f d t]
    ring

theorem sum_supplyAt (suppliers : List Supplier) :
    ∑ i ∈ Finset.range suppliers.length, supplyAt suppliers i = totalSupply suppliers := by
  rw [totalSupply_eq_sum]
  simpa [supplyAt, supplierAt] using
    sum_range_getD (fun s => s.supply) defaultSupplier suppliers

theorem sum_demandAt (customers : List Customer) :
    ∑ j ∈ Finset.range customers.length, demandAt customers j = totalDemand customers := by
  rw [totalDemand_eq_sum]
  simpa [demandAt, customerAt] using
    sum_range_getD (fun c => c.demand) defaultCustomer customers

theorem supplyAt_of_ge (suppliers : List Supplier) (i : ℕ)
    (h : suppliers.length ≤ i) : supplyAt suppliers i = 0 := by
  simp [supplyAt, supplierAt, List.getD, List.getElem?_eq_none h, defaultSupplier]

theorem demandAt_of_ge (customers : List Customer) (j : ℕ)
    (h : customers.length ≤ j) : demandAt customers j = 0 := by
  simp [demandAt, customerAt, List.getD, List.getElem?_eq_none h, defaultCustomer]

theorem supplierAt_mem (suppliers : List Supplier) (i : ℕ)
    (h : i < suppliers.length) : supplierAt suppliers i ∈ suppliers := by
  rw [supplierAt, List.getD_eq_getElem _ _ h]
  exact List.getElem_mem h

theorem customerAt_mem (customers : List Customer) (j : ℕ)
    (h : j < customers.length) : customerAt customers j ∈ customers := by
  rw [customerAt, List.getD_eq_getElem _ _ h]
  exact List.getElem_mem h

theorem supplyAt_nonneg (suppliers : List Supplier)
    (h : ∀ s ∈ suppliers, 0 ≤ s.supply) (i : ℕ) : 0 ≤ supplyAt suppliers i := by
  rcases lt_or_le i suppliers.length with hi | hi
  · exact h _ (supplierAt_mem suppliers i hi)
  · rw [supplyAt_of_ge suppliers i hi]

theorem demandAt_nonneg (customers : List Customer)
    (h : ∀ c ∈ customers, 0 ≤ c.demand) (j : ℕ) : 0 ≤ demandAt customers j := by
  rcases lt_or_le j customers.length with hj | hj
  · exact h _ (customerAt_mem customers j hj)
  · rw [demandAt_of_ge customers j hj]

/-! ## The row-major cell list -/

theorem mem_rowMajor {m n : ℕ} {c : ℕ × ℕ} :
    c ∈ rowMajor m n ↔ c.1 < m ∧ c.2 < n := by
  cases c with
  | mk i j =>
    simp only [rowMajor, List.mem_flatMap, List.mem_map, List.mem_range, Prod.mk.injEq]
    constructor
    · rintro ⟨a, ha, b, hb, h1, h2⟩
      exact ⟨h1 ▸ ha, h2 ▸ hb⟩
    · rintro ⟨h1, h2⟩
      exact ⟨i, h1, j, h2, rfl, rfl⟩


theorem lexLt_asymm {a b : ℕ × ℕ} (h : lexLt a b) : ¬lexLt b a := by
  rcases h with h | ⟨h1, h2⟩ <;> rintro (h3 | ⟨h4, h5⟩) <;> omega

theorem rowMajor_pairwise (m n : ℕ) : (rowMajor m n).Pairwise lexLt := by
  rw [rowMajor]
  apply List.pairwise_flatMap.mpr
  refine ⟨fun i _ => ?_, ?_⟩
  · exact List.pairwise_map.mpr (by
      simpa [lexLt] using List.pairwise_lt_range n)
  · have : List.Pairwise (· < ·) (List.range m) := List.pairwise_lt_range m
    refine this.imp_of_mem ?_
    intro a b _ _ hab
    intro x hx y hy
    rcases List.mem_map.mp hx with ⟨jx, _, rfl⟩
    rcases List.mem_map.mp hy with ⟨jy, _, rfl⟩
    exact Or.inl hab

/-! ## Specification of the maximum-profit cell scan -/

theorem findMaxCell_eq_foldl (Z : ℕ → ℕ → ℚ) (m n : ℕ) (remS remD : ℕ → ℚ) :
    findMaxCell Z m n remS remD = (rowMajor m n).foldl (scanStep Z remS remD) none := rfl

theorem scan_none {Z : ℕ → ℕ → ℚ} {remS remD : ℕ → ℚ} :
    ∀ {l : List (ℕ × ℕ)} {best : Option (ℕ × ℕ)},
      l.foldl (scanStep Z remS remD) best = none →
      best = none ∧ ∀ c ∈ l, ¬elig remS remD c := by
  intro l
  induction l with
  | nil => intro best h; exact ⟨h, by simp⟩
  | cons c t ih =>
    intro best h
    rw [List.foldl_cons] at h
    obtain ⟨hstep, ht⟩ := ih h
    have hbest : best = none ∧ ¬elig remS remD c := by
      by_cases he : elig remS remD c
      · exfalso
        rw [elig] at he
        cases best with
        | none => simp [scanStep, he] at hstep
        | some b =>
          rw [scanStep.eq_def, if_pos he] at hstep
          by_cases hz : Z b.1 b.2 < Z c.1 c.2 <;> simp [hz] at hstep
      · rw [elig] at he
        rw [scanStep.eq_def, if_neg he] at hstep
        exact ⟨hstep, fun hc => he hc⟩
    refine ⟨hbest.1, ?_⟩
    intro x hx
    rcases List.mem_cons.mp hx with rfl | hx
    · exact hbest.2
    · exact ht x hx

/-- Core specification of the scan: on a strictly row-major-sorted cell
list, the fold returns an eligible cell that strictly beats every eligible
cell before it and is not beaten by any eligible cell of the list. -/
theorem scan_spec {Z : ℕ → ℕ → ℚ} {remS remD : ℕ → ℚ} :
    ∀ (l : List (ℕ × ℕ)) (best : Option (ℕ × ℕ)),
      l.Pairwise lexLt →
      (∀ b, best = some b → elig remS remD b ∧ ∀ c ∈ l, lexLt b c) →
      ∀ r, l.foldl (scanStep Z remS remD) best = some r →
        elig remS remD r ∧
        (∀ b, best = some b → Z b.1 b.2 ≤ Z r.1 r.2 ∧ (b ≠ r → Z b.1 b.2 < Z r.1 r.2)) ∧
        (∀ c ∈ l, elig remS remD c →
          Z c.1 c.2 ≤ Z r.1 r.2 ∧ (lexLt c r → Z c.1 c.2 < Z r.1 r.2)) := by
  intro l
  induction l with
  | nil =>
    intro best _ hb r hr
    simp only [List.foldl_nil] at hr
    obtain ⟨he, _⟩ := hb r hr
    exact ⟨he, fun b hbr => by rw [hr] at hbr; cases hbr; exact ⟨le_refl _, fun h => absurd rfl h⟩,
      by simp⟩
  | cons c t ih =>
    intro best hpw hb r hr
    rw [List.foldl_cons] at hr
    have hpwt : t.Pairwise lexLt := hpw.of_cons
    have hct : ∀ x ∈ t, lexLt c x := fun x hx => (List.pairwise_cons.mp hpw).1 x hx
    by_cases he : elig remS remD c
    · have he2 : 0 < remS c.1 ∧ 0 < remD c.2 := he
      cases best with
      | none =>
        have hstep : scanStep Z remS remD none c = some c := by
          rw [scanStep.eq_def, if_pos he2]
        rw [hstep] at hr
        obtain ⟨hre, hracc, hrt⟩ := ih (some c) hpwt
          (fun b hbc => by cases hbc; exact ⟨he, hct⟩) r hr
        refine ⟨hre, by simp, ?_⟩
        intro x hx hex
        rcases List.mem_cons.mp hx with rfl | hx
        · obtain ⟨h1, h2⟩ := hracc x rfl
          refine ⟨h1, fun hlt => h2 ?_⟩
          rintro rfl
          exact lexLt_asymm hlt hlt
        · exact hrt x hx hex
      | some b =>
        obtain ⟨hbe, hbl⟩ := hb b rfl
        have hbc : lexLt b c := hbl c (List.mem_cons_self c t)
        by_cases hz : Z b.1 b.2 < Z c.1 c.2
        · have hstep : scanStep Z remS remD (some b) c = some c := by
            rw [scanStep.eq_def, if_pos he2]; simp [hz]
          rw [hstep] at hr
          obtain ⟨hre, hracc, hrt⟩ := ih (some c) hpwt
            (fun x hxc => by cases hxc; exact ⟨he, hct⟩) r hr
          obtain ⟨hc1, _⟩ := hracc c rfl
          refine ⟨hre, ?_, ?_⟩
          · intro x hxb
            cases hxb
            exact ⟨le_of_lt (lt_of_lt_of_le hz hc1), fun _ => lt_of_lt_of_le hz hc1⟩
          · intro x hx hex
            rcases List.mem_cons.mp hx with rfl | hx
            · obtain ⟨h1, h2⟩ := hracc x rfl
              refine ⟨h1, fun hlt => h2 ?_⟩
              rintro rfl
              exact lexLt_asymm hlt hlt
            · exact hrt x hx hex
        · have hstep : scanStep Z remS remD (some b) c = some b := by
            rw [scanStep.eq_def, if_pos he2]; simp [hz]
          rw [hstep] at hr
          obtain ⟨hre, hracc, hrt⟩ := ih (some b) hpwt
            (fun x hxb => by cases hxb; exact ⟨hbe, fun y hy => hbl y (List.mem_cons_of_mem c hy)⟩)
            r hr
          refine ⟨hre, fun x hxb => by cases hxb; exact hracc b rfl, ?_⟩
          intro x hx hex
          rcases List.mem_cons.mp hx with rfl | hx
          · obtain ⟨h1, h2⟩ := hracc b rfl
            have hxb : Z x.1 x.2 ≤ Z b.1 b.2 := not_lt.mp hz
            refine ⟨le_trans hxb h1, fun hlt => ?_⟩
            by_cases hbr : b = r
            · subst hbr
              exact absurd hlt (lexLt_asymm hbc)
            · exact lt_of_le_of_lt hxb (h2 hbr)
          · exact hrt x hx hex
    · have he2 : ¬(0 < remS c.1 ∧ 0 < remD c.2) := he
      have hstep : scanStep Z remS remD best c = best := by
        rw [scanStep.eq_def, if_neg he2]
      rw [hstep] at hr
      obtain ⟨hre, hracc, hrt⟩ := ih best hpwt
        (fun b hbb => by
          obtain ⟨h1, h2⟩ := hb b hbb
          exact ⟨h1, fun y hy => h2 y (List.mem_cons_of_mem c hy)⟩) r hr
      refine ⟨hre, hracc, ?_⟩
      intro x hx hex
      rcases List.mem_cons.mp hx with rfl | hx
      · exact absurd hex he
      · exact hrt x hx hex

/-- Wrapper: the cell returned by `findMaxCell` is eligible and in range,
no eligible cell has a strictly larger profit, and every eligible cell
strictly earlier in row-major order has a strictly smaller profit. -/
theorem findMaxCell_spec {Z : ℕ → ℕ → ℚ} {m n : ℕ} {remS remD : ℕ → ℚ}
    {i j : ℕ} (h : findMaxCell Z m n remS remD = some (i, j)) :
    (i < m ∧ j < n ∧ 0 < remS i ∧ 0 < remD j) ∧
    ∀ i2 j2, i2 < m → j2 < n → 0 < remS i2 → 0 < remD j2 →
      Z i2 j2 ≤ Z i j ∧ (lexLt (i2, j2) (i, j) → Z i2 j2 < Z i j) := by
  rw [findMaxCell_eq_foldl] at h
  obtain ⟨hre, _, hrt⟩ := scan_spec (rowMajor m n) none (rowMajor_pairwise m n) (by simp) _ h
  have hmem : (i, j) ∈ rowMajor m n := by
    by_contra hni
    -- the returned cell always comes from the list (or from the accumulator, which is `none`)
    obtain ⟨hrS, hrD⟩ := hre
    -- a cell with positive remaining supply and demand out of the list:
    -- show directly that the fold output is a member of the list
    have : ∀ (l : List (ℕ × ℕ)) (best : Option (ℕ × ℕ)) (r : ℕ × ℕ),
        l.foldl (scanStep Z remS remD) best = some r → best = some r ∨ r ∈ l := by
      intro l
      induction l with
      | nil => intro best r hr; simp only [List.foldl_nil] at hr; exact Or.inl hr
      | cons c t ih =>
        intro best r hr
        rw [List.foldl_cons] at hr
        rcases ih _ r hr with hstep | hmem
        · rw [scanStep.eq_def] at hstep
          split at hstep
          · cases best with
            | none =>
              simp only [] at hstep
              exact Or.inr (List.mem_cons.mpr (Or.inl (by cases hstep; rfl)))
            | some b =>
              simp only [] at hstep
              split at hstep
              · exact Or.inr (List.mem_cons.mpr (Or.inl (by cases hstep; rfl)))
              · exact Or.inl hstep
          · exact Or.inl hstep
        · exact Or.inr (List.mem_cons_of_mem c hmem)
    rcases this (rowMajor m n) none (i, j) h with hc | hc
    · exact Option.noConfusion hc
    · exact hni hc
  obtain ⟨him, hjn⟩ := mem_rowMajor.mp hmem
  exact ⟨⟨him, hjn, hre.1, hre.2⟩, fun i2 j2 h1 h2 h3 h4 =>
    hrt (i2, j2) (mem_rowMajor.mpr ⟨h1, h2⟩) ⟨h3, h4⟩⟩

/-- When some cell is eligible, the scan cannot come back empty. -/
theorem findMaxCell_ne_none {Z : ℕ → ℕ → ℚ} {m n : ℕ} {remS remD : ℕ → ℚ}
    {i j : ℕ} (hi : i < m) (hj : j < n) (hS : 0 < remS i) (hD : 0 < remD j) :
    findMaxCell Z m n remS remD ≠ none := by
  intro h
  rw [findMaxCell_eq_foldl] at h
  obtain ⟨_, hall⟩ := scan_none h
  exact hall (i, j) (mem_rowMajor.mpr ⟨hi, hj⟩) ⟨hS, hD⟩

/-! ## Invariants of the Maximum Element Method loop -/

theorem filter_card_update_zero {f : ℕ → ℚ} {i0 m : ℕ} (hi : i0 < m)
    (hpos : 0 < f i0) {v : ℚ} (hv : v ≤ 0) :
    ((Finset.range m).filter fun i => 0 < Function.update f i0 v i).card + 1 =
    ((Finset.range m).filter fun i => 0 < f i).card := by
  have hset : ((Finset.range m).filter fun i => 0 < Function.update f i0 v i)
      = ((Finset.range m).filter fun i => 0 < f i).erase i0 := by
    ext x
    rcases eq_or_ne x i0 with rfl | hx
    · simp [Function.update_same, not_lt.mpr hv]
    · simp [Function.update_noteq hx, hx]
  have hmem : i0 ∈ (Finset.range m).filter fun i => 0 < f i := by
    simp [Finset.mem_filter, Finset.mem_range, hi, hpos]
  rw [hset, Finset.card_erase_of_mem hmem]
  have : 1 ≤ ((Finset.range m).filter fun i => 0 < f i).card :=
    Finset.card_pos.mpr ⟨i0, hmem⟩
  omega

theorem filter_card_update_le {f : ℕ → ℚ} {i0 m : ℕ} {v : ℚ} (hv : v ≤ f i0) :
    ((Finset.range m).filter fun i => 0 < Function.update f i0 v i).card ≤
    ((Finset.range m).filter fun i => 0 < f i).card := by
  apply Finset.card_le_card
  intro x hx
  simp only [Finset.mem_filter, Finset.mem_range] at hx ⊢
  rcases eq_or_ne x i0 with rfl | hne
  · rw [Function.update_same] at hx
    exact ⟨hx.1, lt_of_lt_of_le hx.2 hv⟩
  · rw [Function.update_noteq hne] at hx
    exact hx

theorem sum_update_range {f : ℕ → ℚ} {i0 m : ℕ} (hi : i0 < m) (v : ℚ) :
    ∑ i ∈ Finset.range m, Function.update f i0 v i =
    (∑ i ∈ Finset.range m, f i) - f i0 + v := by
  rw [Finset.sum_update_of_mem (Finset.mem_range.mpr hi), Finset.sdiff_singleton_eq_erase,
    Finset.sum_erase_eq_sub (Finset.mem_range.mpr hi)]
  ring

/-- One allocation step of the MEM loop preserves the invariant, removes
the allocated amount from both remaining totals, and strictly decreases the
count of positive remaining entries. -/
theorem mem_step_inv {Z : ℕ → ℕ → ℚ} {supply demand : ℕ → ℚ} {m n : ℕ}
    {st : MemState} (hInv : MemInv supply demand m n st)
    {i j : ℕ} (hcell : findMaxCell Z m n st.remS st.remD = some (i, j)) :
    MemInv supply demand m n
      { remS := Function.update st.remS i (st.remS i - min (st.remS i) (st.remD j))
        remD := Function.update st.remD j (st.remD j - min (st.remS i) (st.remD j))
        plan := Function.update st.plan i
          (Function.update (st.plan i) j (min (st.remS i) (st.remD j)))
        steps := st.steps + 1 } ∧
    (∑ i2 ∈ Finset.range m,
        Function.update st.remS i (st.remS i - min (st.remS i) (st.remD j)) i2) =
      (∑ i2 ∈ Finset.range m, st.remS i2) - min (st.remS i) (st.remD j) ∧
    (∑ j2 ∈ Finset.range n,
        Function.update st.remD j (st.remD j - min (st.remS i) (st.remD j)) j2) =
      (∑ j2 ∈ Finset.range n, st.remD j2) - min (st.remS i) (st.remD j) ∧
    posCount m n
      { remS := Function.update st.remS i (st.remS i - min (st.remS i) (st.remD j))
        remD := Function.update st.remD j (st.remD j - min (st.remS i) (st.remD j))
        plan := Function.update st.plan i
          (Function.update (st.plan i) j (min (st.remS i) (st.remD j)))
        steps := st.steps + 1 } + 1 ≤ posCount m n st := by
  obtain ⟨⟨him, hjn, hSi, hDj⟩, _⟩ := findMaxCell_spec hcell
  obtain ⟨h1, h2, h3, h4, h5, h6, h7⟩ := hInv
  set a := min (st.remS i) (st.remD j) with ha
  have hapos : 0 < a := lt_min hSi hDj
  have haS : a ≤ st.remS i := min_le_left _ _
  have haD : a ≤ st.remD j := min_le_right _ _
  have hplanij : st.plan i j = 0 := h6 i j hSi hDj
  have hsumS : (∑ i2 ∈ Finset.range m, Function.update st.remS i (st.remS i - a) i2) =
      (∑ i2 ∈ Finset.range m, st.remS i2) - a := by
    rw [sum_update_range him]; ring
  have hsumD : (∑ j2 ∈ Finset.range n, Function.update st.remD j (st.remD j - a) j2) =
      (∑ j2 ∈ Finset.range n, st.remD j2) - a := by
    rw [sum_update_range hjn]; ring
  refine ⟨⟨?_, ?_, ?_, ?_, ?_, ?_, ?_⟩, hsumS, hsumD, ?_⟩
  · intro x
    dsimp only
    rcases eq_or_ne x i with rfl | hx
    · rw [Function.update_same]; linarith
    · rw [Function.update_noteq hx]; exact h1 x
  · intro y
    dsimp only
    rcases eq_or_ne y j with rfl | hy
    · rw [Function.update_same]; linarith
    · rw [Function.update_noteq hy]; exact h2 y
  · intro x y
    dsimp only
    rcases eq_or_ne x i with rfl | hx
    · rw [Function.update_same]
      rcases eq_or_ne y j with rfl | hy
      · rw [Function.update_same]; linarith
      · rw [Function.update_noteq hy]; exact h3 x y
    · rw [Function.update_noteq hx]; exact h3 x y
  · intro x
    dsimp only
    rcases eq_or_ne x i with rfl | hx
    · rw [Function.update_same, Function.update_same]
      rw [Finset.sum_update_of_mem (Finset.mem_range.mpr hjn),
        Finset.sdiff_singleton_eq_erase,
        Finset.sum_erase_eq_sub (Finset.mem_range.mpr hjn), hplanij]
      have := h4 x
      linarith
    · rw [Function.update_noteq hx, Function.update_noteq hx]
      exact h4 x
  · intro y
    dsimp only
    rcases eq_or_ne y j with rfl | hy
    · have hcol : (fun i2 => Function.update st.plan i
          (Function.update (st.plan i) y a) i2 y)
          = Function.update (fun i2 => st.plan i2 y) i a := by
        funext x
        rcases eq_or_ne x i with rfl | hx
        · rw [Function.update_same, Function.update_same, Function.update_same]
        · rw [Function.update_noteq hx, Function.update_noteq hx]
      rw [Function.update_same]
      have hsum : (∑ i2 ∈ Finset.range m, Function.update st.plan i
              (Function.update (st.plan i) y a) i2 y)
          = ∑ i2 ∈ Finset.range m, Function.update (fun i2 => st.plan i2 y) i a i2 :=
        Finset.sum_congr rfl fun x _ => congrFun hcol x
      rw [hsum, sum_update_range him, hplanij]
      have := h5 y
      linarith
    · rw [Function.update_noteq hy]
      have : ∀ i2, Function.update st.plan i (Function.update (st.plan i) j a) i2 y
          = st.plan i2 y := by
        intro x
        rcases eq_or_ne x i with rfl | hx
        · rw [Function.update_same, Function.update_noteq hy]
        · rw [Function.update_noteq hx]
      rw [Finset.sum_congr rfl fun x _ => this x]
      exact h5 y
  · intro x y hx hy
    dsimp only at hx hy ⊢
    have hx2 : 0 < st.remS x := by
      rcases eq_or_ne x i with rfl | hne
      · exact hSi
      · rwa [Function.update_noteq hne] at hx
    have hy2 : 0 < st.remD y := by
      rcases eq_or_ne y j with rfl | hne
      · exact hDj
      · rwa [Function.update_noteq hne] at hy
    rcases eq_or_ne x i with rfl | hxi
    · rcases eq_or_ne y j with rfl | hyj
      · exfalso
        rcases le_total (st.remS x) (st.remD y) with hmin | hmin
        · rw [Function.update_same, ha, min_eq_left hmin, sub_self] at hx
          exact lt_irrefl 0 hx
        · rw [Function.update_same, ha, min_eq_right hmin, sub_self] at hy
          exact lt_irrefl 0 hy
      · rw [Function.update_same, Function.update_noteq hyj]
        exact h6 x y hx2 hy2
    · rw [Function.update_noteq hxi]
      exact h6 x y hx2 hy2
  · intro x y hxy
    dsimp only
    have hne : ¬(x = i ∧ y = j) := by
      rintro ⟨rfl, rfl⟩
      rcases hxy with hxm | hyn
      · omega
      · omega
    rcases eq_or_ne x i with rfl | hxi
    · have hyj : y ≠ j := fun hy => hne ⟨rfl, hy⟩
      rw [Function.update_same, Function.update_noteq hyj]
      exact h7 x y hxy
    · rw [Function.update_noteq hxi]
      exact h7 x y hxy
  · rcases le_total (st.remS i) (st.remD j) with hmin | hmin
    · have hzero : st.remS i - a ≤ 0 := by rw [ha, min_eq_left hmin]; linarith
      have hc1 := filter_card_update_zero him hSi hzero
      have hc2 : ((Finset.range n).filter fun y =>
          0 < Function.update st.remD j (st.remD j - a) y).card ≤
          ((Finset.range n).filter fun y => 0 < st.remD y).card :=
        filter_card_update_le (by linarith)
      simp only [posCount]
      dsimp only
      omega
    · have hzero : st.remD j - a ≤ 0 := by rw [ha, min_eq_right hmin]; linarith
      have hc1 := filter_card_update_zero hjn hDj hzero
      have hc2 : ((Finset.range m).filter fun x =>
          0 < Function.update st.remS i (st.remS i - a) x).card ≤
          ((Finset.range m).filter fun x => 0 < st.remS x).card :=
        filter_card_update_le (by linarith)
      simp only [posCount]
      dsimp only
      omega

/-- Main induction on the MEM loop: starting from an invariant-satisfying
state whose remaining totals are balanced, and with at least `posCount` fuel,
the loop drains every in-range remaining entry to `0` while preserving the
invariant, in at most `posCount − 1` further allocation steps. -/
theorem memGo_spec (Z : ℕ → ℕ → ℚ) (supply demand : ℕ → ℚ) (m n : ℕ) :
    ∀ (fuel : ℕ) (st : MemState), MemInv supply demand m n st →
      (∑ i ∈ Finset.range m, st.remS i) = (∑ j ∈ Finset.range n, st.remD j) →
      posCount m n st ≤ fuel →
      MemInv supply demand m n (memGo Z m n fuel st) ∧
      (∀ i ∈ Finset.range m, (memGo Z m n fuel st).remS i = 0) ∧
      (∀ j ∈ Finset.range n, (memGo Z m n fuel st).remD j = 0) ∧
      (memGo Z m n fuel st).steps ≤ st.steps + (posCount m n st - 1) := by
  intro fuel
  induction fuel with
  | zero =>
    intro st hInv hbal hfuel
    have hpc : posCount m n st = 0 := Nat.le_zero.mp hfuel
    have hpc2 := hpc
    simp only [posCount] at hpc2
    obtain ⟨hc1, hc2⟩ := Nat.add_eq_zero.mp hpc2
    have hS0 : ∀ i ∈ Finset.range m, st.remS i = 0 := by
      intro i hi
      by_contra hne
      have hpos : 0 < st.remS i := lt_of_le_of_ne (hInv.1 i) (Ne.symm hne)
      have : i ∈ (Finset.range m).filter fun i => 0 < st.remS i := by
        simp [hi, hpos, Finset.mem_filter]
      rw [Finset.card_eq_zero.mp hc1] at this
      exact absurd this (Finset.not_mem_empty i)
    have hD0 : ∀ j ∈ Finset.range n, st.remD j = 0 := by
      intro j hj
      by_contra hne
      have hpos : 0 < st.remD j := lt_of_le_of_ne (hInv.2.1 j) (Ne.symm hne)
      have : j ∈ (Finset.range n).filter fun j => 0 < st.remD j := by
        simp [hj, hpos, Finset.mem_filter]
      rw [Finset.card_eq_zero.mp hc2] at this
      exact absurd this (Finset.not_mem_empty j)
    exact ⟨hInv, hS0, hD0, Nat.le_add_right _ _⟩
  | succ fuel ih =>
    intro st hInv hbal hfuel
    by_cases hg : (((List.range m).any fun i => decide (0 < st.remS i)) &&
        ((List.range n).any fun j => decide (0 < st.remD j))) = true
    · rw [Bool.and_eq_true] at hg
      obtain ⟨i0, hi0m, hi0⟩ : ∃ i < m, 0 < st.remS i := by
        obtain ⟨i, hi, hdec⟩ := List.any_eq_true.mp hg.1
        exact ⟨i, List.mem_range.mp hi, of_decide_eq_true hdec⟩
      obtain ⟨j0, hj0n, hj0⟩ : ∃ j < n, 0 < st.remD j := by
        obtain ⟨j, hj, hdec⟩ := List.any_eq_true.mp hg.2
        exact ⟨j, List.mem_range.mp hj, of_decide_eq_true hdec⟩
      have hpc2 : 2 ≤ posCount m n st := by
        have hcS : 0 < ((Finset.range m).filter fun i => 0 < st.remS i).card :=
          Finset.card_pos.mpr ⟨i0, by simp [Finset.mem_filter, hi0m, hi0]⟩
        have hcD : 0 < ((Finset.range n).filter fun j => 0 < st.remD j).card :=
          Finset.card_pos.mpr ⟨j0, by simp [Finset.mem_filter, hj0n, hj0]⟩
        simp only [posCount]
        omega
      cases hfc : findMaxCell Z m n st.remS st.remD with
      | none => exact absurd hfc (findMaxCell_ne_none hi0m hj0n hi0 hj0)
      | some c =>
        obtain ⟨i, j⟩ := c
        obtain ⟨hInv2, hsumS, hsumD, hposdec⟩ := mem_step_inv hInv hfc
        have hunf : memGo Z m n (fuel + 1) st = memGo Z m n fuel
            { remS := Function.update st.remS i (st.remS i - min (st.remS i) (st.remD j))
              remD := Function.update st.remD j (st.remD j - min (st.remS i) (st.remD j))
              plan := Function.update st.plan i
                (Function.update (st.plan i) j (min (st.remS i) (st.remD j)))
              steps := st.steps + 1 } := by
          rw [memGo]
          rw [if_pos (Bool.and_eq_true _ _ |>.mpr hg), hfc]
        have hbal2 :
            (∑ i2 ∈ Finset.range m, Function.update st.remS i
                (st.remS i - min (st.remS i) (st.remD j)) i2) =
            (∑ j2 ∈ Finset.range n, Function.update st.remD j
                (st.remD j - min (st.remS i) (st.remD j)) j2) := by
          rw [hsumS, hsumD, hbal]
        have hfuel2 : posCount m n
            { remS := Function.update st.remS i (st.remS i - min (st.remS i) (st.remD j))
              remD := Function.update st.remD j (st.remD j - min (st.remS i) (st.remD j))
              plan := Function.update st.plan i
                (Function.update (st.plan i) j (min (st.remS i) (st.remD j)))
              steps := st.steps + 1 } ≤ fuel := by omega
        obtain ⟨h1, h2, h3, h4⟩ := ih _ hInv2 hbal2 hfuel2
        rw [hunf]
        refine ⟨h1, h2, h3, ?_⟩
        have := hposdec
        simp only at h4
        omega
    · have hunf : memGo Z m n (fuel + 1) st = st := by
        rw [memGo]
        rw [if_neg]
        intro hcon
        exact hg hcon
      rw [hunf]
      have hside : (∀ i ∈ Finset.range m, st.remS i = 0) ∨
          (∀ j ∈ Finset.range n, st.remD j = 0) := by
        rcases Bool.and_eq_false_iff.mp (Bool.not_eq_true _ |>.mp hg) with hA | hB
        · left
          intro i hi
          by_contra hne
          have hpos : 0 < st.remS i := lt_of_le_of_ne (hInv.1 i) (Ne.symm hne)
          have : (List.range m).any (fun i => decide (0 < st.remS i)) = true :=
            List.any_eq_true.mpr ⟨i, List.mem_range.mpr (Finset.mem_range.mp hi),
              decide_eq_true hpos⟩
          rw [hA] at this
          exact Bool.false_ne_true this
        · right
          intro j hj
          by_contra hne
          have hpos : 0 < st.remD j := lt_of_le_of_ne (hInv.2.1 j) (Ne.symm hne)
          have : (List.range n).any (fun j => decide (0 < st.remD j)) = true :=
            List.any_eq_true.mpr ⟨j, List.mem_range.mpr (Finset.mem_range.mp hj),
              decide_eq_true hpos⟩
          rw [hB] at this
          exact Bool.false_ne_true this
      have hboth : (∀ i ∈ Finset.range m, st.remS i = 0) ∧
          (∀ j ∈ Finset.range n, st.remD j = 0) := by
        rcases hside with hA | hB
        · have hzS : (∑ i ∈ Finset.range m, st.remS i) = 0 :=
            Finset.sum_eq_zero hA
          have hzD : (∑ j ∈ Finset.range n, st.remD j) = 0 := by rw [← hbal, hzS]
          refine ⟨hA, fun j hj => ?_⟩
          exact (Finset.sum_eq_zero_iff_of_nonneg fun x _ => hInv.2.1 x).mp hzD j hj
        · have hzD : (∑ j ∈ Finset.range n, st.remD j) = 0 :=
            Finset.sum_eq_zero hB
          have hzS : (∑ i ∈ Finset.range m, st.remS i) = 0 := by rw [hbal, hzD]
          refine ⟨fun i hi => ?_, hB⟩
          exact (Finset.sum_eq_zero_iff_of_nonneg fun x _ => hInv.1 x).mp hzS i hi
      exact ⟨hInv, hboth.1, hboth.2, Nat.le_add_right _ _⟩

/-- Feasibility of the Maximum Element Method on a balanced problem with
non-negative supplies and demands: the plan is non-negative, every row sum
equals the corresponding supply, every column sum equals the corresponding
demand, and at most `rows + cols − 1` allocation steps were performed. -/
theorem findOptimalTransportation_spec (profitMatrix : List (List ℚ))
    (suppliers : List Supplier) (customers : List Customer)
    (hS : ∀ s ∈ suppliers, 0 ≤ s.supply) (hC : ∀ c ∈ customers, 0 ≤ c.demand)
    (hbal : totalSupply suppliers = totalDemand customers) :
    (∀ i j, 0 ≤ (findOptimalTransportation profitMatrix suppliers customers).plan i j) ∧
    (∀ i, (∑ j ∈ Finset.range customers.length,
        (findOptimalTransportation profitMatrix suppliers customers).plan i j) =
      supplyAt suppliers i) ∧
    (∀ j, (∑ i ∈ Finset.range suppliers.length,
        (findOptimalTransportation profitMatrix suppliers customers).plan i j) =
      demandAt customers j) ∧
    (findOptimalTransportation profitMatrix suppliers customers).steps ≤
      suppliers.length + customers.length - 1 := by
  set m := suppliers.length
  set n := customers.length
  have hInv0 : MemInv (supplyAt suppliers) (demandAt customers) m n
      { remS := supplyAt suppliers, remD := demandAt customers,
        plan := fun _ _ => 0, steps := 0 } := by
    refine ⟨supplyAt_nonneg suppliers hS, demandAt_nonneg customers hC,
      fun _ _ => le_refl 0, fun i => ?_, fun j => ?_, fun _ _ _ _ => rfl,
      fun _ _ _ => rfl⟩
    · simp
    · simp
  have hbal0 : (∑ i ∈ Finset.range m, supplyAt suppliers i) =
      (∑ j ∈ Finset.range n, demandAt customers j) := by
    rw [sum_supplyAt, sum_demandAt, hbal]
  have hfuel0 : posCount m n
      { remS := supplyAt suppliers, remD := demandAt customers,
        plan := fun _ _ => 0, steps := 0 } ≤ m + n := by
    simp only [posCount]
    have h1 := Finset.card_filter_le (Finset.range m) fun i => 0 < supplyAt suppliers i
    have h2 := Finset.card_filter_le (Finset.range n) fun j => 0 < demandAt customers j
    simp only [Finset.card_range] at h1 h2
    omega
  obtain ⟨hInv, hS0, hD0, hsteps⟩ := memGo_spec (zGet profitMatrix)
    (supplyAt suppliers) (demandAt customers) m n (m + n) _ hInv0 hbal0 hfuel0
  have hfo : findOptimalTransportation profitMatrix suppliers customers =
      memGo (zGet profitMatrix) m n (m + n)
        { remS := supplyAt suppliers, remD := demandAt customers,
          plan := fun _ _ => 0, steps := 0 } := rfl
  rw [hfo]
  obtain ⟨hn1, hn2, hn3, hrow, hcol, hel, hoor⟩ := hInv
  refine ⟨hn3, fun i => ?_, fun j => ?_, ?_⟩
  · rcases lt_or_le i m with him | him
    · have := hrow i
      rw [hS0 i (Finset.mem_range.mpr him)] at this
      linarith
    · rw [supplyAt_of_ge suppliers i him]
      exact Finset.sum_eq_zero fun j _ => hoor i j (Or.inl him)
  · rcases lt_or_le j n with hjn | hjn
    · have := hcol j
      rw [hD0 j (Finset.mem_range.mpr hjn)] at this
      linarith
    · rw [demandAt_of_ge customers j hjn]
      exact Finset.sum_eq_zero fun i _ => hoor i j (Or.inr hjn)
  · have hpc : posCount m n
        { remS := supplyAt suppliers, remD := demandAt customers,
          plan := fun _ _ => 0, steps := 0 } ≤ m + n := hfuel0
    dsimp only at hsteps
    omega

/-! ## Lemmas about the balancer and the validator -/

theorem totalSupply_append (a b : List Supplier) :
    totalSupply (a ++ b) = totalSupply a + totalSupply b := by
  rw [totalSupply_eq_sum, totalSupply_eq_sum, totalSupply_eq_sum, List.map_append,
    List.sum_append]

theorem totalDemand_append (a b : List Customer) :
    totalDemand (a ++ b) = totalDemand a + totalDemand b := by
  rw [totalDemand_eq_sum, totalDemand_eq_sum, totalDemand_eq_sum, List.map_append,
    List.sum_append]

theorem totalSupply_singleton (s : Supplier) : totalSupply [s] = s.supply := by
  rw [totalSupply_eq_sum]; simp

theorem totalDemand_singleton (c : Customer) : totalDemand [c] = c.demand := by
  rw [totalDemand_eq_sum]; simp

/-- The lists returned by `balanceProblem` always have equal totals. -/
theorem balanceProblem_totals (s : List Supplier) (c : List Customer) :
    totalSupply (balanceProblem s c).suppliers =
    totalDemand (balanceProblem s c).customers := by
  unfold balanceProblem
  dsimp only
  split_ifs with h1 h2
  · simp only [totalDemand_append, totalDemand_singleton]
    ring
  · simp only [totalSupply_append, totalSupply_singleton]
    ring
  · dsimp only
    linarith

theorem balanceProblem_suppliers_nonneg (s : List Supplier) (c : List Customer)
    (hs : ∀ x ∈ s, 0 ≤ x.supply) :
    ∀ x ∈ (balanceProblem s c).suppliers, 0 ≤ x.supply := by
  unfold balanceProblem
  dsimp only
  split_ifs with h1 h2
  · exact hs
  · intro x hx
    rcases List.mem_append.mp hx with hx | hx
    · exact hs x hx
    · rcases List.mem_singleton.mp hx with rfl
      dsimp only
      linarith
  · exact hs

theorem balanceProblem_customers_nonneg (s : List Supplier) (c : List Customer)
    (hc : ∀ x ∈ c, 0 ≤ x.demand) :
    ∀ x ∈ (balanceProblem s c).customers, 0 ≤ x.demand := by
  unfold balanceProblem
  dsimp only
  split_ifs with h1 h2
  · intro x hx
    rcases List.mem_append.mp hx with hx | hx
    · exact hc x hx
    · rcases List.mem_singleton.mp hx with rfl
      dsimp only
      linarith
  · exact hc
  · exact hc

theorem flatMap_pair_nil {α : Type} (l : List α) (p q : α → Prop)
    [DecidablePred p] [DecidablePred q] (m1 m2 : α → String) :
    (l.flatMap fun x => (if p x then [m1 x] else []) ++ (if q x then [m2 x] else [])) = []
    ↔ ∀ x ∈ l, ¬p x ∧ ¬q x := by
  rw [List.flatMap_eq_nil_iff]
  constructor
  · intro h x hx
    have hxnil := h x hx
    rw [List.append_eq_nil] at hxnil
    constructor
    · intro hp
      rw [if_pos hp] at hxnil
      exact List.cons_ne_nil _ _ hxnil.1
    · intro hq
      rw [if_pos hq] at hxnil
      exact List.cons_ne_nil _ _ hxnil.2
  · intro h x hx
    rw [if_neg (h x hx).1, if_neg (h x hx).2]
    rfl

/-- `validateProblem` succeeds exactly when the suppliers and customers are
non-empty with positive supplies/demands and non-negative costs/prices. -/
theorem validateProblem_isValid_iff (p : MiddlemanProblem) :
    (validateProblem p).isValid = true ↔
      p.suppliers ≠ [] ∧ p.customers ≠ [] ∧
      (∀ s ∈ p.suppliers, 0 < s.supply ∧ 0 ≤ s.purchaseCost) ∧
      (∀ c ∈ p.customers, 0 < c.demand ∧ 0 ≤ c.sellingPrice) := by
  simp only [validateProblem, List.isEmpty_eq_true, List.append_eq_nil]
  split_ifs with h1 h2 h3
  · simp [h1]
  · simp [h1]
  · simp [h3]
  · rw [flatMap_pair_nil p.suppliers (fun s => s.supply ≤ 0) (fun s => s.purchaseCost < 0),
      flatMap_pair_nil p.customers (fun c => c.demand ≤ 0) (fun c => c.sellingPrice < 0)]
    constructor
    · rintro ⟨hs, hc⟩
      exact ⟨h1, h3, fun s hsm => ⟨not_le.mp (hs s hsm).1, not_lt.mp (hs s hsm).2⟩,
        fun c hcm => ⟨not_le.mp (hc c hcm).1, not_lt.mp (hc c hcm).2⟩⟩
    · rintro ⟨-, -, hs, hc⟩
      exact ⟨fun s hsm => ⟨not_le.mpr (hs s hsm).1, not_lt.mpr (hs s hsm).2⟩,
        fun c hcm => ⟨not_le.mpr (hc c hcm).1, not_lt.mpr (hc c hcm).2⟩⟩

/-! ## Stagnation of the improvement step on saturated plans -/

/-- When the improving cell's row and column are both saturated (row sum
equals the supply, column sum equals the demand), `improveSolution` returns
its input plan unchanged: the direct allocation is `min 0 0 = 0` and both
one-unit reallocation scans find no cell to shift. -/
theorem improveSolution_of_saturated (plan : ℕ → ℕ → ℚ)
    (imp : ImprovementOpportunity) (suppliers : List Supplier)
    (customers : List Customer)
    (hrow : (∑ k ∈ Finset.range customers.length, plan imp.supplierIndex k) =
      supplyAt suppliers imp.supplierIndex)
    (hcol : (∑ k ∈ Finset.range suppliers.length, plan k imp.customerIndex) =
      demandAt customers imp.customerIndex) :
    improveSolution plan imp suppliers customers = plan := by
  have hA : supplyAt suppliers imp.supplierIndex -
      (∑ k ∈ Finset.range customers.length, plan imp.supplierIndex k) = 0 := by
    rw [hrow, sub_self]
  have hB : demandAt customers imp.customerIndex -
      (∑ k ∈ Finset.range suppliers.length, plan k imp.customerIndex) = 0 := by
    rw [hcol, sub_self]
  have hm01 : min (0 : ℚ) 1 = 0 := min_eq_left (by norm_num)
  simp only [improveSolution, hA, hB, min_self, lt_irrefl, if_false, hm01]
  have hfind1 : (List.range customers.length).find? (fun k =>
      !(k == imp.customerIndex) && decide (0 < plan imp.supplierIndex k) &&
      decide (0 < min (plan imp.supplierIndex k) (0 : ℚ))) = none := by
    rw [List.find?_eq_none]
    intro k _
    simp only [Bool.and_eq_true, decide_eq_true_eq, not_and]
    intro _ hlt
    exact absurd hlt (not_lt.mpr (min_le_right _ 0))
  have hfind2 : (List.range suppliers.length).find? (fun k =>
      !(k == imp.supplierIndex) && decide (0 < plan k imp.customerIndex) &&
      decide (0 < min (plan k imp.customerIndex) (0 : ℚ))) = none := by
    rw [List.find?_eq_none]
    intro k _
    simp only [Bool.and_eq_true, decide_eq_true_eq, not_and]
    intro _ hlt
    exact absurd hlt (not_lt.mpr (min_le_right _ 0))
  rw [hfind1, hfind2]

/-- A plan always equals itself under the `0.001`-tolerance comparison. -/
theorem arraysEqual_self (a : ℕ → ℕ → ℚ) (m n : ℕ) :
    arraysEqual a a m n = true := by
  unfold arraysEqual
  rw [List.all_eq_true]
  intro i _
  rw [List.all_eq_true]
  intro j _
  simp

/-- In `checkOptimality`, the `isOptimal` flag is by construction the
emptiness of the (sorted) improvement list. -/
theorem checkOptimality_isOptimal_eq (pm : List (List ℚ)) (plan : ℕ → ℕ → ℚ)
    (suppliers : List Supplier) (customers : List Customer) :
    (checkOptimality pm plan suppliers customers).isOptimal =
    (checkOptimality pm plan suppliers customers).improvements.isEmpty := rfl

/-- If the optimality check fails on a plan but the improvement step leaves
the plan unchanged, the improvement loop breaks out on its first pass with
the same plan, zero iterations and `isOptimal = false`. -/
theorem solveLoopAux_stagnant (pm : List (List ℚ)) (suppliers : List Supplier)
    (customers : List Customer) (plan : ℕ → ℕ → ℚ)
    (hno : (checkOptimality pm plan suppliers customers).isOptimal = false)
    (hstag : improveSolution plan
      ((checkOptimality pm plan suppliers customers).improvements.headD default)
      suppliers customers = plan) :
    solveLoopAux pm suppliers customers 21 plan 0 =
      { plan := plan, isOptimal := false, iterations := 0 } := by
  have h21 : (21 : ℕ) = 20 + 1 := rfl
  rw [h21, solveLoopAux]
  rw [if_neg (by omega : ¬(20 : ℕ) ≤ 0)]
  have hie : (checkOptimality pm plan suppliers customers).improvements.isEmpty = false := by
    rw [← checkOptimality_isOptimal_eq, hno]
  simp only [hno, hie, Bool.false_eq_true, if_false, hstag, arraysEqual_self, if_true]

/-- Master stationarity lemma: on any input passing validation, the plan
coming out of `solveMiddlemanProblem`'s improvement phase is the Maximum
Element Method plan itself, the iteration counter stays at `0`, and the
`isOptimal` flag is the initial optimality check's verdict.  (The balancer
always produces balanced totals, so the MEM plan saturates every row and
column, and the improvement step can never move any flow.) -/
theorem solutionOf_stationary (p : MiddlemanProblem)
    (hv : (validateProblem p).isValid = true) :
    (solutionOf p).transportationPlan = (initialStateOf p).plan ∧
    (solutionOf p).iterations = 0 ∧
    (solutionOf p).isOptimal = (checkOptimality (profitMatrixOf p)
      (initialStateOf p).plan (balancedOf p).suppliers (balancedOf p).customers).isOptimal := by
  obtain ⟨-, -, hS, hC⟩ := (validateProblem_isValid_iff p).mp hv
  have hbs : ∀ x ∈ (balancedOf p).suppliers, 0 ≤ x.supply :=
    balanceProblem_suppliers_nonneg _ _ fun x hx => le_of_lt (hS x hx).1
  have hbc : ∀ x ∈ (balancedOf p).customers, 0 ≤ x.demand :=
    balanceProblem_customers_nonneg _ _ fun x hx => le_of_lt (hC x hx).1
  have hbal := balanceProblem_totals p.suppliers p.customers
  obtain ⟨-, hrow, hcol, -⟩ := findOptimalTransportation_spec (profitMatrixOf p)
    (balancedOf p).suppliers (balancedOf p).customers hbs hbc hbal
  by_cases hopt : (checkOptimality (profitMatrixOf p) (initialStateOf p).plan
      (balancedOf p).suppliers (balancedOf p).customers).isOptimal = true
  · simp only [solutionOf, hopt, if_true]
    exact ⟨trivial, trivial, trivial⟩
  · rw [Bool.not_eq_true] at hopt
    have hstag : improveSolution (initialStateOf p).plan
        ((checkOptimality (profitMatrixOf p) (initialStateOf p).plan
          (balancedOf p).suppliers (balancedOf p).customers).improvements.headD default)
        (balancedOf p).suppliers (balancedOf p).customers = (initialStateOf p).plan :=
      improveSolution_of_saturated _ _ _ _ (hrow _) (hcol _)
    have hloop := solveLoopAux_stagnant (profitMatrixOf p) (balancedOf p).suppliers
      (balancedOf p).customers (initialStateOf p).plan hopt hstag
    simp only [solutionOf, hopt, Bool.false_eq_true, if_false, hloop]
    exact ⟨trivial, trivial, trivial⟩

/-- Inversion for the solver entry point: a successful run means the
validation passed and the result is the pipeline's solution. -/
theorem solve_ok_iff (p : MiddlemanProblem) (s : MiddlemanSolution) :
    solveMiddlemanProblem p = .ok s ↔
    (validateProblem p).isValid = true ∧ s = solutionOf p := by
  unfold solveMiddlemanProblem
  split_ifs with h1 h2
  · constructor
    · intro h
      exact absurd h (by simp)
    · rintro ⟨hv, -⟩
      rw [hv] at h1
      exact absurd h1 (by simp)
  · obtain ⟨hs, hc, -, -⟩ := (validateProblem_isValid_iff p).mp
      (by revert h1; cases (validateProblem p).isValid <;> simp)
    rw [Bool.or_eq_true, List.isEmpty_eq_true, List.isEmpty_eq_true] at h2
    rcases h2 with h2 | h2
    · exact absurd h2 hs
    · exact absurd h2 hc
  · have hv : (validateProblem p).isValid = true := by
      revert h1; cases (validateProblem p).isValid <;> simp
    constructor
    · intro h
      cases h
      exact ⟨hv, rfl⟩
    · rintro ⟨-, rfl⟩
      rfl

/-! ## Characterization of the results aggregator and the route list -/

theorem sum_filter_product (m n : ℕ) (P : ℕ → ℕ → Prop)
    [∀ i j, Decidable (P i j)] (f : ℕ → ℕ → ℚ) :
    (∑ c ∈ (Finset.range m ×ˢ Finset.range n).filter fun c => P c.1 c.2,
        f c.1 c.2) =
    ∑ i ∈ Finset.range m, ∑ j ∈ Finset.range n, if P i j then f i j else 0 := by
  rw [Finset.sum_filter, Finset.sum_product]

/-- The four totals of `calculateResults`, written as sums over the filtered
set of cells: purchase and transport costs range over positive-flow cells
with no fictitious endpoint, revenue ranges over positive-flow cells whose
customer is real (the supplier may be the fictitious one), and profit is
revenue minus the two costs. -/
theorem calculateResults_spec (plan : ℕ → ℕ → ℚ) (suppliers : List Supplier)
    (customers : List Customer) (tc : List (List ℚ)) :
    (calculateResults plan suppliers customers tc).totalPurchaseCost =
      (∑ c ∈ (Finset.range suppliers.length ×ˢ Finset.range customers.length).filter
          fun c => 0 < plan c.1 c.2 ∧
            ¬(customerAt customers c.2).id = "fictitious-customer" ∧
            ¬(supplierAt suppliers c.1).id = "fictitious-supplier",
        plan c.1 c.2 * (supplierAt suppliers c.1).purchaseCost) ∧
    (calculateResults plan suppliers customers tc).totalTransportationCost =
      (∑ c ∈ (Finset.range suppliers.length ×ˢ Finset.range customers.length).filter
          fun c => 0 < plan c.1 c.2 ∧
            ¬(customerAt customers c.2).id = "fictitious-customer" ∧
            ¬(supplierAt suppliers c.1).id = "fictitious-supplier",
        plan c.1 c.2 *
          zGet (validateTransportationCosts tc suppliers.length customers.length) c.1 c.2) ∧
    (calculateResults plan suppliers customers tc).totalRevenue =
      (∑ c ∈ (Finset.range suppliers.length ×ˢ Finset.range customers.length).filter
          fun c => 0 < plan c.1 c.2 ∧
            ¬(customerAt customers c.2).id = "fictitious-customer",
        plan c.1 c.2 * (customerAt customers c.2).sellingPrice) ∧
    (calculateResults plan suppliers customers tc).totalProfit =
      (calculateResults plan suppliers customers tc).totalRevenue -
      (calculateResults plan suppliers customers tc).totalPurchaseCost -
      (calculateResults plan suppliers customers tc).totalTransportationCost := by
  refine ⟨?_, ?_, ?_, rfl⟩
  · rw [Finset.sum_filter, Finset.sum_product]
    rfl
  · rw [Finset.sum_filter, Finset.sum_product]
    rfl
  · rw [Finset.sum_filter, Finset.sum_product]
    rfl

/-- Membership in the route list produced by `createOptimalRoutes`: exactly
the in-range positive-flow cells with no fictitious endpoint, carrying the
quantity, the unit profit, and the three per-unit price components. -/
theorem mem_createOptimalRoutes (plan : ℕ → ℕ → ℚ) (suppliers : List Supplier)
    (customers : List Customer) (tc pm : List (List ℚ))
    (cell : TransportationCell) :
    cell ∈ createOptimalRoutes plan suppliers customers tc pm ↔
    ∃ i j, i < suppliers.length ∧ j < customers.length ∧ 0 < plan i j ∧
      ¬(customerAt customers j).id = "fictitious-customer" ∧
      ¬(supplierAt suppliers i).id = "fictitious-supplier" ∧
      cell = { supplierId := (supplierAt suppliers i).id,
               customerId := (customerAt customers j).id,
               quantity := plan i j, unitProfit := zGet pm i j,
               purchaseCost := (supplierAt suppliers i).purchaseCost,
               transportationCost :=
                 zGet (validateTransportationCosts tc suppliers.length customers.length) i j,
               sellingPrice := (customerAt customers j).sellingPrice } := by
  unfold createOptimalRoutes
  rw [List.mem_filterMap]
  constructor
  · rintro ⟨c, hcm, hc⟩
    obtain ⟨him, hjn⟩ := mem_rowMajor.mp hcm
    refine ⟨c.1, c.2, him, hjn, ?_⟩
    dsimp only at hc
    by_cases hq : 0 < plan c.1 c.2
    · rw [if_pos hq] at hc
      by_cases hfic : ¬(customerAt customers c.2).id = "fictitious-customer" ∧
          ¬(supplierAt suppliers c.1).id = "fictitious-supplier"
      · rw [if_pos hfic] at hc
        cases hc
        exact ⟨hq, hfic.1, hfic.2, rfl⟩
      · rw [if_neg hfic] at hc
        exact absurd hc (by simp)
    · rw [if_neg hq] at hc
      exact absurd hc (by simp)
  · rintro ⟨i, j, him, hjn, hq, hfc, hfs, rfl⟩
    refine ⟨(i, j), mem_rowMajor.mpr ⟨him, hjn⟩, ?_⟩
    dsimp only
    rw [if_pos hq, if_pos ⟨hfc, hfs⟩]

/-! ## Entry formula of the profit matrix -/

theorem calculateProfitMatrix_entry (suppliers : List Supplier)
    (customers : List Customer) (tc : List (List ℚ)) (i j : ℕ)
    (hi : i < suppliers.length) (hj : j < customers.length) :
    zGet (calculateProfitMatrix suppliers customers tc) i j =
      (customerAt customers j).sellingPrice -
      (supplierAt suppliers i).purchaseCost - zGet tc i j := by
  have h1 : (calculateProfitMatrix suppliers customers tc).getD i [] =
      (List.range customers.length).map fun j2 =>
        (customerAt customers j2).sellingPrice - (supplierAt suppliers i).purchaseCost -
        zGet tc i j2 := by
    unfold calculateProfitMatrix
    have hlen : i < ((List.range suppliers.length).map fun i2 =>
        (List.range customers.length).map fun j2 =>
          (customerAt customers j2).sellingPrice - (supplierAt suppliers i2).purchaseCost -
          zGet tc i2 j2).length := by simpa using hi
    rw [List.getD_eq_getElem _ _ hlen, List.getElem_map, List.getElem_range]
  have h2 : ((List.range customers.length).map fun j2 =>
      (customerAt customers j2).sellingPrice - (supplierAt suppliers i).purchaseCost -
      zGet tc i j2).getD j 0 =
      (customerAt customers j).sellingPrice - (supplierAt suppliers i).purchaseCost -
      zGet tc i j := by
    have hlen : j < ((List.range customers.length).map fun j2 =>
        (customerAt customers j2).sellingPrice - (supplierAt suppliers i).purchaseCost -
        zGet tc i j2).length := by simpa using hj
    rw [List.getD_eq_getElem _ _ hlen, List.getElem_map, List.getElem_range]
  rw [zGet, h1, h2]

/-! ## The claims -/

/-- C5: `calculateProfitMatrix` is a pure function of its inputs (identical
inputs give an identical matrix) and for every in-range cell `(i, j)`
returns exactly `sellingPrice[j] − purchaseCost[i] − transportCost[i][j]`,
a missing transport-cost entry counting as `0`; on the worked example
(S1: 50 @ 8, S2: 70 @ 10; C1: 40 @ 20, C2: 60 @ 25; transport costs
[[2,4],[3,1]]) it returns [[10,13],[7,14]]. -/
theorem claim5_profit_matrix :
    (∀ (s1 : List Supplier) (c1 : List Customer) (t1 : List (List ℚ))
        (s2 : List Supplier) (c2 : List Customer) (t2 : List (List ℚ)),
      s1 = s2 → c1 = c2 → t1 = t2 →
      calculateProfitMatrix s1 c1 t1 = calculateProfitMatrix s2 c2 t2) ∧
    (∀ (suppliers : List Supplier) (customers : List Customer)
        (tc : List (List ℚ)) (i j : ℕ) (hi : i < suppliers.length)
        (hj : j < customers.length),
      zGet (calculateProfitMatrix suppliers customers tc) i j =
        (customers.get ⟨j, hj⟩).sellingPrice -
        (suppliers.get ⟨i, hi⟩).purchaseCost - zGet tc i j) ∧
    calculateProfitMatrix exampleSuppliers exampleCustomers exampleCosts =
      [[10, 13], [7, 14]] := by
  refine ⟨fun s1 c1 t1 s2 c2 t2 hs hc ht => by rw [hs, hc, ht], ?_, by with_unfolding_all decide⟩
  intro suppliers customers tc i j hi hj
  rw [calculateProfitMatrix_entry suppliers customers tc i j hi hj,
    supplierAt, customerAt, List.getD_eq_getElem _ _ hi, List.getD_eq_getElem _ _ hj]
  rfl

/-- Witness for C5: the formula evaluated at cell (0, 1) of the worked
example gives `25 − 8 − 4 = 13`. -/
theorem claim5_witness :
    zGet (calculateProfitMatrix exampleSuppliers exampleCustomers exampleCosts) 0 1 =
      (exampleCustomers.get ⟨1, by decide⟩).sellingPrice -
      (exampleSuppliers.get ⟨0, by decide⟩).purchaseCost - zGet exampleCosts 0 1 :=
  claim5_profit_matrix.2.1 exampleSuppliers exampleCustomers exampleCosts 0 1
    (by decide) (by decide)

/-- C7: `balanceProblem` does not mutate its inputs (the returned lists are
the input lists with at most the fictitious node appended); it appends
exactly one fictitious customer with demand `totalSupply − totalDemand` and
price 0 when supply exceeds demand, exactly one fictitious supplier with
supply `totalDemand − totalSupply` and cost 0 in the opposite case, and
nothing (setting `isBalanced = true`) when the totals agree; in every case
the returned lists have equal totals. -/
theorem claim7_balancer (s : List Supplier) (c : List Customer) :
    ((balanceProblem s c).suppliers =
        s ++ (balanceProblem s c).fictitiousSupplier.toList ∧
     (balanceProblem s c).customers =
        c ++ (balanceProblem s c).fictitiousCustomer.toList) ∧
    (totalDemand c < totalSupply s →
      (balanceProblem s c).fictitiousCustomer =
        some ⟨"fictitious-customer", "Fictitious Customer",
          totalSupply s - totalDemand c, 0⟩ ∧
      (balanceProblem s c).fictitiousSupplier = none) ∧
    (totalSupply s < totalDemand c →
      (balanceProblem s c).fictitiousSupplier =
        some ⟨"fictitious-supplier", "Fictitious Supplier",
          totalDemand c - totalSupply s, 0⟩ ∧
      (balanceProblem s c).fictitiousCustomer = none) ∧
    (totalSupply s = totalDemand c →
      (balanceProblem s c).fictitiousSupplier = none ∧
      (balanceProblem s c).fictitiousCustomer = none ∧
      (balanceProblem s c).isBalanced = true) ∧
    totalSupply (balanceProblem s c).suppliers =
      totalDemand (balanceProblem s c).customers := by
  refine ⟨?_, ?_, ?_, ?_, balanceProblem_totals s c⟩
  · unfold balanceProblem
    dsimp only
    split_ifs with h1 h2 <;> simp
  · intro h
    unfold balanceProblem
    dsimp only
    rw [if_pos h]
    exact ⟨rfl, rfl⟩
  · intro h
    unfold balanceProblem
    dsimp only
    rw [if_neg (lt_asymm h), if_pos h]
    exact ⟨rfl, rfl⟩
  · intro h
    unfold balanceProblem
    dsimp only
    rw [if_neg (show ¬totalDemand c < totalSupply s by rw [h]; exact lt_irrefl _),
      if_neg (show ¬totalSupply s < totalDemand c by rw [h]; exact lt_irrefl _)]
    exact ⟨rfl, rfl, rfl⟩

/-- Witness for C7: each of the three balancing cases at a concrete input
(excess supply, excess demand, already balanced). -/
theorem claim7_witness :
    (balanceProblem exampleSuppliers exampleCustomers).fictitiousCustomer =
      some ⟨"fictitious-customer", "Fictitious Customer", 20, 0⟩ ∧
    (balanceProblem deficitProblem.suppliers deficitProblem.customers).fictitiousSupplier =
      some ⟨"fictitious-supplier", "Fictitious Supplier", 20, 0⟩ ∧
    (balanceProblem balancedSmallProblem.suppliers
      balancedSmallProblem.customers).isBalanced = true := by
  refine ⟨?_, ?_, ?_⟩
  · rw [((claim7_balancer exampleSuppliers exampleCustomers).2.1
      (by with_unfolding_all decide)).1]
    with_unfolding_all decide
  · rw [((claim7_balancer deficitProblem.suppliers deficitProblem.customers).2.2.1
      (by with_unfolding_all decide)).1]
    with_unfolding_all decide
  · exact ((claim7_balancer balancedSmallProblem.suppliers
      balancedSmallProblem.customers).2.2.2.1 (by with_unfolding_all decide)).2.2

/-- C9: the Results Aggregator accumulates `purchaseCost[i]·X[i][j]` and
`transportCost[i][j]·X[i][j]` only over positive-flow cells with no
fictitious endpoint, accumulates `sellingPrice[j]·X[i][j]` over every
positive-flow cell whose customer is real (the supplier may be the
fictitious one), reports `profit = revenue − purchase − transport`, and the
route list holds exactly the positive-flow cells with no fictitious
endpoint, with their quantity, unit profit and per-unit price components. -/
theorem claim9_results_aggregator (plan : ℕ → ℕ → ℚ) (suppliers : List Supplier)
    (customers : List Customer) (tc pm : List (List ℚ)) :
    ((calculateResults plan suppliers customers tc).totalPurchaseCost =
      (∑ c ∈ (Finset.range suppliers.length ×ˢ Finset.range customers.length).filter
          fun c => 0 < plan c.1 c.2 ∧
            ¬(customerAt customers c.2).id = "fictitious-customer" ∧
            ¬(supplierAt suppliers c.1).id = "fictitious-supplier",
        plan c.1 c.2 * (supplierAt suppliers c.1).purchaseCost)) ∧
    ((calculateResults plan suppliers customers tc).totalTransportationCost =
      (∑ c ∈ (Finset.range suppliers.length ×ˢ Finset.range customers.length).filter
          fun c => 0 < plan c.1 c.2 ∧
            ¬(customerAt customers c.2).id = "fictitious-customer" ∧
            ¬(supplierAt suppliers c.1).id = "fictitious-supplier",
        plan c.1 c.2 *
          zGet (validateTransportationCosts tc suppliers.length customers.length)
            c.1 c.2)) ∧
    ((calculateResults plan suppliers customers tc).totalRevenue =
      (∑ c ∈ (Finset.range suppliers.length ×ˢ Finset.range customers.length).filter
          fun c => 0 < plan c.1 c.2 ∧
            ¬(customerAt customers c.2).id = "fictitious-customer",
        plan c.1 c.2 * (customerAt customers c.2).sellingPrice)) ∧
    ((calculateResults plan suppliers customers tc).totalProfit =
      (calculateResults plan suppliers customers tc).totalRevenue -
      (calculateResults plan suppliers customers tc).totalPurchaseCost -
      (calculateResults plan suppliers customers tc).totalTransportationCost) ∧
    (∀ cell, cell ∈ createOptimalRoutes plan suppliers customers tc pm ↔
      ∃ i j, i < suppliers.length ∧ j < customers.length ∧ 0 < plan i j ∧
        ¬(customerAt customers j).id = "fictitious-customer" ∧
        ¬(supplierAt suppliers i).id = "fictitious-supplier" ∧
        cell = { supplierId := (supplierAt suppliers i).id,
                 customerId := (customerAt customers j).id,
                 quantity := plan i j, unitProfit := zGet pm i j,
                 purchaseCost := (supplierAt suppliers i).purchaseCost,
                 transportationCost :=
                   zGet (validateTransportationCosts tc suppliers.length
                     customers.length) i j,
                 sellingPrice := (customerAt customers j).sellingPrice }) := by
  obtain ⟨h1, h2, h3, h4⟩ := calculateResults_spec plan suppliers customers tc
  exact ⟨h1, h2, h3, h4, fun cell =>
    mem_createOptimalRoutes plan suppliers customers tc pm cell⟩

/-- C10: `solveMiddlemanProblem` fails fast with a descriptive error
exactly on structurally invalid inputs (no suppliers, no customers, a
non-positive supply or demand, a negative purchase cost or selling price),
before any balancing or computation, and succeeds on every input passing
this validation. -/
theorem claim10_validation (p : MiddlemanProblem) :
    (structurallyInvalid p →
      solveMiddlemanProblem p = .error ("Invalid problem: " ++
        String.intercalate ", " (validateProblem p).errors)) ∧
    (¬structurallyInvalid p →
      solveMiddlemanProblem p = .ok (solutionOf p)) := by
  have hgood : ¬structurallyInvalid p ↔ (validateProblem p).isValid = true := by
    rw [validateProblem_isValid_iff]
    unfold structurallyInvalid
    constructor
    · intro h
      push_neg at h
      obtain ⟨hs, hc, hsup, hdem, hpc, hsp⟩ := h
      exact ⟨hs, hc, fun x hx => ⟨hsup x hx, hpc x hx⟩,
        fun x hx => ⟨hdem x hx, hsp x hx⟩⟩
    · rintro ⟨hs, hc, hsup, hdem⟩
      push_neg
      exact ⟨hs, hc, fun x hx => (hsup x hx).1, fun x hx => (hdem x hx).1,
        fun x hx => (hsup x hx).2, fun x hx => (hdem x hx).2⟩
  constructor
  · intro hinv
    have hval : (validateProblem p).isValid = false := by
      cases hv : (validateProblem p).isValid
      · rfl
      · exact absurd hinv (hgood.mpr hv)
    unfold solveMiddlemanProblem
    rw [if_pos hval]
  · intro hniv
    exact (solve_ok_iff p (solutionOf p)).mpr ⟨hgood.mp hniv, rfl⟩

/-- Witness for C10: a supplier-less problem is rejected with the error
message, and the worked example is accepted. -/
theorem claim10_witness :
    structurallyInvalid invalidExample ∧
    solveMiddlemanProblem invalidExample = .error ("Invalid problem: " ++
      String.intercalate ", " (validateProblem invalidExample).errors) ∧
    ¬structurallyInvalid exampleProblem ∧
    solveMiddlemanProblem exampleProblem = .ok (solutionOf exampleProblem) :=
  ⟨by left; rfl, (claim10_validation invalidExample).1 (by left; rfl),
    by with_unfolding_all decide,
    (claim10_validation exampleProblem).2 (by with_unfolding_all decide)⟩

/-- The financial fields and route list of `solutionOf` are the aggregator
applied to its own final plan (definitional). -/
theorem solutionOf_results_eq (p : MiddlemanProblem) :
    (solutionOf p).totalPurchaseCost =
      (calculateResults (solutionOf p).transportationPlan (balancedOf p).suppliers
        (balancedOf p).customers (costsOf p)).totalPurchaseCost ∧
    (solutionOf p).totalTransportationCost =
      (calculateResults (solutionOf p).transportationPlan (balancedOf p).suppliers
        (balancedOf p).customers (costsOf p)).totalTransportationCost ∧
    (solutionOf p).totalRevenue =
      (calculateResults (solutionOf p).transportationPlan (balancedOf p).suppliers
        (balancedOf p).customers (costsOf p)).totalRevenue ∧
    (solutionOf p).totalProfit =
      (calculateResults (solutionOf p).transportationPlan (balancedOf p).suppliers
        (balancedOf p).customers (costsOf p)).totalProfit ∧
    (solutionOf p).optimalRoutes =
      createOptimalRoutes (solutionOf p).transportationPlan (balancedOf p).suppliers
        (balancedOf p).customers (costsOf p) (profitMatrixOf p) :=
  ⟨rfl, rfl, rfl, rfl, rfl⟩

/-- C4: the solver is deterministic — identical input problems give
identical solutions — and the maximum-profit scan of the initial solution
builder breaks ties by the first maximal cell in row-major order: the
returned cell is eligible and in range, no eligible cell beats it, and
every eligible cell strictly earlier in row-major order (lower `i`, then
lower `j`) has a strictly smaller profit. -/
theorem claim4_determinism :
    (∀ p q : MiddlemanProblem, p = q →
      solveMiddlemanProblem p = solveMiddlemanProblem q) ∧
    (∀ (Z : ℕ → ℕ → ℚ) (m n : ℕ) (remS remD : ℕ → ℚ) (i j : ℕ),
      findMaxCell Z m n remS remD = some (i, j) →
      (i < m ∧ j < n ∧ 0 < remS i ∧ 0 < remD j) ∧
      ∀ i2 j2, i2 < m → j2 < n → 0 < remS i2 → 0 < remD j2 →
        Z i2 j2 ≤ Z i j ∧ (lexLt (i2, j2) (i, j) → Z i2 j2 < Z i j)) :=
  ⟨fun p q h => by rw [h], fun _ _ _ _ _ _ _ h => findMaxCell_spec h⟩

/-- Witness for C4: determinism applied to the worked example, and the scan
applied to a concrete one-cell instance. -/
theorem claim4_witness :
    solveMiddlemanProblem exampleProblem = solveMiddlemanProblem exampleProblem ∧
    ((0 : ℕ) < 1 ∧ (0 : ℕ) < 1 ∧ (0 : ℚ) < 1 ∧ (0 : ℚ) < 1) :=
  ⟨claim4_determinism.1 exampleProblem exampleProblem rfl,
   (claim4_determinism.2 (fun _ _ => (0 : ℚ)) 1 1 (fun _ => 1) (fun _ => 1) 0 0
     (by with_unfolding_all decide)).1⟩

/-- C6: on every balanced problem with positive supplies and demands, the
Maximum Element Method produces a non-negative plan meeting every capacity
constraint with equality — each row sum is the supply, each column sum the
demand — in at most `rows + cols − 1` allocation steps; and the final plan
returned by a successful solve satisfies the same equalities over the
balanced lists. -/
theorem claim6_feasibility :
    (∀ (profitMatrix : List (List ℚ)) (suppliers : List Supplier)
        (customers : List Customer),
      (∀ s ∈ suppliers, 0 < s.supply) → (∀ c ∈ customers, 0 < c.demand) →
      totalSupply suppliers = totalDemand customers →
      (∀ i j, 0 ≤ (findOptimalTransportation profitMatrix suppliers customers).plan i j) ∧
      (∀ i, (∑ j ∈ Finset.range customers.length,
          (findOptimalTransportation profitMatrix suppliers customers).plan i j) =
        supplyAt suppliers i) ∧
      (∀ j, (∑ i ∈ Finset.range suppliers.length,
          (findOptimalTransportation profitMatrix suppliers customers).plan i j) =
        demandAt customers j) ∧
      (findOptimalTransportation profitMatrix suppliers customers).steps ≤
        suppliers.length + customers.length - 1) ∧
    (∀ (p : MiddlemanProblem) (s : MiddlemanSolution),
      solveMiddlemanProblem p = .ok s →
      (∀ i, (∑ j ∈ Finset.range (balancedOf p).customers.length,
          s.transportationPlan i j) = supplyAt (balancedOf p).suppliers i) ∧
      (∀ j, (∑ i ∈ Finset.range (balancedOf p).suppliers.length,
          s.transportationPlan i j) = demandAt (balancedOf p).customers j)) := by
  constructor
  · intro pm suppliers customers hS hC hbal
    exact findOptimalTransportation_spec pm suppliers customers
      (fun x hx => le_of_lt (hS x hx)) (fun x hx => le_of_lt (hC x hx)) hbal
  · intro p s hok
    obtain ⟨hv, rfl⟩ := (solve_ok_iff p s).mp hok
    obtain ⟨hplan, -, -⟩ := solutionOf_stationary p hv
    obtain ⟨-, -, hS, hC⟩ := (validateProblem_isValid_iff p).mp hv
    have hbs : ∀ x ∈ (balancedOf p).suppliers, 0 ≤ x.supply :=
      balanceProblem_suppliers_nonneg _ _ fun x hx => le_of_lt (hS x hx).1
    have hbc : ∀ x ∈ (balancedOf p).customers, 0 ≤ x.demand :=
      balanceProblem_customers_nonneg _ _ fun x hx => le_of_lt (hC x hx).1
    obtain ⟨-, hrow, hcol, -⟩ := findOptimalTransportation_spec (profitMatrixOf p)
      (balancedOf p).suppliers (balancedOf p).customers hbs hbc
      (balanceProblem_totals p.suppliers p.customers)
    constructor
    · intro i
      rw [show (solutionOf p).transportationPlan = (initialStateOf p).plan from hplan]
      exact hrow i
    · intro j
      rw [show (solutionOf p).transportationPlan = (initialStateOf p).plan from hplan]
      exact hcol j

/-- Witness for C6: the MEM step bound on a concrete balanced 1×1 problem,
and the row-sum equality of the worked example's solve at row 0. -/
theorem claim6_witness :
    (findOptimalTransportation [[(2 : ℚ)]] balancedSmallProblem.suppliers
      balancedSmallProblem.customers).steps ≤ 1 + 1 - 1 ∧
    (∑ j ∈ Finset.range (balancedOf exampleProblem).customers.length,
      (solutionOf exampleProblem).transportationPlan 0 j) =
      supplyAt (balancedOf exampleProblem).suppliers 0 :=
  ⟨(claim6_feasibility.1 [[(2 : ℚ)]] balancedSmallProblem.suppliers
      balancedSmallProblem.customers (by with_unfolding_all decide)
      (by with_unfolding_all decide) (by with_unfolding_all decide)).2.2.2,
   (claim6_feasibility.2 exampleProblem (solutionOf exampleProblem)
      ((solve_ok_iff exampleProblem (solutionOf exampleProblem)).mpr
        ⟨by with_unfolding_all decide, rfl⟩)).1 0⟩

/-- C2: whenever the improving cell's row and column are both saturated,
`improveSolution` returns a plan equal to its input; consequently on every
balanced problem the plan returned by a successful solve is element-wise
the initial Maximum Element Method plan, and the improvement loop stops on
its first pass (iteration count 0). -/
theorem claim2_saturated_stagnation :
    (∀ (plan : ℕ → ℕ → ℚ) (imp : ImprovementOpportunity)
        (suppliers : List Supplier) (customers : List Customer),
      (∑ k ∈ Finset.range customers.length, plan imp.supplierIndex k) =
        supplyAt suppliers imp.supplierIndex →
      (∑ k ∈ Finset.range suppliers.length, plan k imp.customerIndex) =
        demandAt customers imp.customerIndex →
      improveSolution plan imp suppliers customers = plan) ∧
    (∀ (p : MiddlemanProblem) (s : MiddlemanSolution),
      totalSupply p.suppliers = totalDemand p.customers →
      solveMiddlemanProblem p = .ok s →
      (∀ i j, s.transportationPlan i j = (initialStateOf p).plan i j) ∧
      s.iterations = 0) := by
  refine ⟨improveSolution_of_saturated, ?_⟩
  intro p s _ hok
  obtain ⟨hv, rfl⟩ := (solve_ok_iff p s).mp hok
  obtain ⟨hplan, hiter, -⟩ := solutionOf_stationary p hv
  exact ⟨fun i j => by rw [hplan], hiter⟩

/-- Witness for C2: a saturated 1×1 plan is left unchanged by the
improvement step, and a concrete balanced solve reports 0 iterations. -/
theorem claim2_witness :
    improveSolution (fun i j => if i = 0 ∧ j = 0 then 5 else 0) ⟨0, 0, 1, 0, 3⟩
      balancedSmallProblem.suppliers balancedSmallProblem.customers =
      (fun i j => if i = 0 ∧ j = 0 then 5 else 0) ∧
    (solutionOf balancedSmallProblem).iterations = 0 :=
  ⟨claim2_saturated_stagnation.1 (fun i j => if i = 0 ∧ j = 0 then 5 else 0)
      ⟨0, 0, 1, 0, 3⟩ balancedSmallProblem.suppliers balancedSmallProblem.customers
      (by with_unfolding_all decide) (by with_unfolding_all decide),
   (claim2_saturated_stagnation.2 balancedSmallProblem
      (solutionOf balancedSmallProblem) (by with_unfolding_all decide)
      ((solve_ok_iff balancedSmallProblem (solutionOf balancedSmallProblem)).mpr
        ⟨by with_unfolding_all decide, rfl⟩)).2⟩

/-- C3: every accepted improvement step of a solve leaves total profit
non-decreasing.  In fact no step is ever accepted: the plan of a successful
solve equals the initial Maximum Element Method plan element-wise (the
balanced lists leave the improver nothing to move), so the reported total
profit is at least (indeed equal to) the initial plan's total profit. -/
theorem claim3_monotonicity :
    ∀ (p : MiddlemanProblem) (s : MiddlemanSolution),
      solveMiddlemanProblem p = .ok s →
      (∀ i j, s.transportationPlan i j = (initialStateOf p).plan i j) ∧
      (calculateResults (initialStateOf p).plan (balancedOf p).suppliers
        (balancedOf p).customers (costsOf p)).totalProfit ≤ s.totalProfit := by
  intro p s hok
  obtain ⟨hv, rfl⟩ := (solve_ok_iff p s).mp hok
  obtain ⟨hplan, -, -⟩ := solutionOf_stationary p hv
  refine ⟨fun i j => by rw [hplan], ?_⟩
  rw [(solutionOf_results_eq p).2.2.2.1, hplan]

/-- Witness for C3: the profit inequality of the worked example's solve. -/
theorem claim3_witness :
    (calculateResults (initialStateOf exampleProblem).plan
      (balancedOf exampleProblem).suppliers (balancedOf exampleProblem).customers
      (costsOf exampleProblem)).totalProfit ≤ (solutionOf exampleProblem).totalProfit :=
  (claim3_monotonicity exampleProblem (solutionOf exampleProblem)
    ((solve_ok_iff exampleProblem (solutionOf exampleProblem)).mpr
      ⟨by with_unfolding_all decide, rfl⟩)).2

/-- C8: every successful solve terminates with at most 20 iterations,
either because the optimality test succeeded, or by stagnation (no
improvement opportunity exists, or the improved plan equals the previous
plan under the element-wise 0.001 tolerance), or — never reached in fact —
by the 20-iteration cap with `isOptimal = false`; the loop can never run
indefinitely (it is fuel-bounded by construction). -/
theorem claim8_termination :
    ∀ (p : MiddlemanProblem) (s : MiddlemanSolution),
      solveMiddlemanProblem p = .ok s →
      s.iterations ≤ 20 ∧
      (s.isOptimal = true ∨
        (s.isOptimal = false ∧
          ((checkOptimality (profitMatrixOf p) s.transportationPlan
              (balancedOf p).suppliers (balancedOf p).customers).improvements = [] ∨
            arraysEqual s.transportationPlan
              (improveSolution s.transportationPlan
                ((checkOptimality (profitMatrixOf p) s.transportationPlan
                  (balancedOf p).suppliers
                  (balancedOf p).customers).improvements.headD default)
                (balancedOf p).suppliers (balancedOf p).customers)
              (balancedOf p).suppliers.length (balancedOf p).customers.length
              = true)) ∨
        (s.iterations = 20 ∧ s.isOptimal = false)) := by
  intro p s hok
  obtain ⟨hv, rfl⟩ := (solve_ok_iff p s).mp hok
  obtain ⟨hplan, hiter, hopt⟩ := solutionOf_stationary p hv
  refine ⟨by rw [hiter]; omega, ?_⟩
  obtain ⟨-, -, hS, hC⟩ := (validateProblem_isValid_iff p).mp hv
  have hbs : ∀ x ∈ (balancedOf p).suppliers, 0 ≤ x.supply :=
    balanceProblem_suppliers_nonneg _ _ fun x hx => le_of_lt (hS x hx).1
  have hbc : ∀ x ∈ (balancedOf p).customers, 0 ≤ x.demand :=
    balanceProblem_customers_nonneg _ _ fun x hx => le_of_lt (hC x hx).1
  obtain ⟨-, hrow, hcol, -⟩ := findOptimalTransportation_spec (profitMatrixOf p)
    (balancedOf p).suppliers (balancedOf p).customers hbs hbc
    (balanceProblem_totals p.suppliers p.customers)
  cases hoc : (checkOptimality (profitMatrixOf p) (initialStateOf p).plan
      (balancedOf p).suppliers (balancedOf p).customers).isOptimal
  · right; left
    refine ⟨by rw [hopt, hoc], ?_⟩
    right
    rw [show (solutionOf p).transportationPlan = (initialStateOf p).plan from hplan]
    have himp : improveSolution (initialStateOf p).plan
        ((checkOptimality (profitMatrixOf p) (initialStateOf p).plan
          (balancedOf p).suppliers (balancedOf p).customers).improvements.headD default)
        (balancedOf p).suppliers (balancedOf p).customers = (initialStateOf p).plan :=
      improveSolution_of_saturated _ _ _ _ (hrow _) (hcol _)
    rw [himp]
    exact arraysEqual_self _ _ _
  · left
    rw [hopt, hoc]

/-- Witness for C8: the iteration bound on the stagnation example (whose
initial plan fails the optimality test and stagnates). -/
theorem claim8_witness :
    (solutionOf stagnationProblem).iterations ≤ 20 :=
  (claim8_termination stagnationProblem (solutionOf stagnationProblem)
    ((solve_ok_iff stagnationProblem (solutionOf stagnationProblem)).mpr
      ⟨by with_unfolding_all decide, rfl⟩)).1

/-- C1 (counterexample): on the deficit problem (supply 10 @ cost 5 against
demand 30 @ price 4, so a fictitious supplier ships 20 units to the real
customer), the aggregated total revenue of the solve is `120 = 30·4`,
which includes the `20·4 = 80` contributed by the fictitious-supplier flow;
the revenue computed as the claim prescribes (excluding every flow with a
fictitious endpoint) would be `40`.  The claim that total revenue never
includes a flow whose supplier is the fictitious node is therefore false. -/
theorem claim1_counterexample :
    (solveMiddlemanProblem deficitProblem).toOption.map
      (fun s => s.totalRevenue) = some 120 ∧
    (solveMiddlemanProblem deficitProblem).toOption.map
      (fun s => claimedRevenueBothRealOnly s.transportationPlan
        (balancedOf deficitProblem).suppliers (balancedOf deficitProblem).customers) =
      some 40 ∧
    (120 : ℚ) ≠ 40 := by
  refine ⟨?_, ?_, by norm_num⟩
  · with_unfolding_all decide
  · with_unfolding_all decide

/-- C1 (amended): in the aggregated result of a successful solve, total
purchase cost and total transportation cost include no flow with a
fictitious endpoint, and the route list contains no such cell; total
revenue, however, excludes only flows whose customer is fictitious — a
positive flow from the fictitious supplier to a real customer does
contribute to total revenue. -/
theorem claim1_amended_aggregation :
    ∀ (p : MiddlemanProblem) (s : MiddlemanSolution),
      solveMiddlemanProblem p = .ok s →
      (s.totalPurchaseCost =
        (∑ c ∈ (Finset.range (balancedOf p).suppliers.length ×ˢ
            Finset.range (balancedOf p).customers.length).filter
            fun c => 0 < s.transportationPlan c.1 c.2 ∧
              ¬(customerAt (balancedOf p).customers c.2).id = "fictitious-customer" ∧
              ¬(supplierAt (balancedOf p).suppliers c.1).id = "fictitious-supplier",
          s.transportationPlan c.1 c.2 *
            (supplierAt (balancedOf p).suppliers c.1).purchaseCost)) ∧
      (s.totalTransportationCost =
        (∑ c ∈ (Finset.range (balancedOf p).suppliers.length ×ˢ
            Finset.range (balancedOf p).customers.length).filter
            fun c => 0 < s.transportationPlan c.1 c.2 ∧
              ¬(customerAt (balancedOf p).customers c.2).id = "fictitious-customer" ∧
              ¬(supplierAt (balancedOf p).suppliers c.1).id = "fictitious-supplier",
          s.transportationPlan c.1 c.2 *
            zGet (validateTransportationCosts (costsOf p)
              (balancedOf p).suppliers.length (balancedOf p).customers.length)
              c.1 c.2)) ∧
      (s.totalRevenue =
        (∑ c ∈ (Finset.range (balancedOf p).suppliers.length ×ˢ
            Finset.range (balancedOf p).customers.length).filter
            fun c => 0 < s.transportationPlan c.1 c.2 ∧
              ¬(customerAt (balancedOf p).customers c.2).id = "fictitious-customer",
          s.transportationPlan c.1 c.2 *
            (customerAt (balancedOf p).customers c.2).sellingPrice)) ∧
      (∀ cell ∈ s.optimalRoutes,
        ¬cell.supplierId = "fictitious-supplier" ∧
        ¬cell.customerId = "fictitious-customer") := by
  intro p s hok
  obtain ⟨hv, rfl⟩ := (solve_ok_iff p s).mp hok
  obtain ⟨h1, h2, h3, -, h5⟩ := solutionOf_results_eq p
  obtain ⟨g1, g2, g3, -⟩ := calculateResults_spec (solutionOf p).transportationPlan
    (balancedOf p).suppliers (balancedOf p).customers (costsOf p)
  refine ⟨h1.trans g1, h2.trans g2, h3.trans g3, ?_⟩
  intro cell hcell
  rw [h5] at hcell
  obtain ⟨i, j, -, -, -, hfc, hfs, rfl⟩ :=
    (mem_createOptimalRoutes (solutionOf p).transportationPlan
      (balancedOf p).suppliers (balancedOf p).customers (costsOf p)
      (profitMatrixOf p) cell).mp hcell
  exact ⟨hfs, hfc⟩

/-- Witness for C1 (amended): the revenue characterization instantiated on
the deficit problem's solve. -/
theorem claim1_amended_witness :
    (solutionOf deficitProblem).totalRevenue =
      (∑ c ∈ (Finset.range (balancedOf deficitProblem).suppliers.length ×ˢ
          Finset.range (balancedOf deficitProblem).customers.length).filter
          fun c => 0 < (solutionOf deficitProblem).transportationPlan c.1 c.2 ∧
            ¬(customerAt (balancedOf deficitProblem).customers c.2).id =
              "fictitious-customer",
        (solutionOf deficitProblem).transportationPlan c.1 c.2 *
          (customerAt (balancedOf deficitProblem).customers c.2).sellingPrice) :=
  (claim1_amended_aggregation deficitProblem (solutionOf deficitProblem)
    ((solve_ok_iff deficitProblem (solutionOf deficitProblem)).mpr
      ⟨by with_unfolding_all decide, rfl⟩)).2.2.1

end Middleman
